import Mathlib

/-!
Verification of the stardag task-identity and build-orchestration core.

This file shallowly embeds the core of the `stardag` library
(`src/stardag/build/sequential.py`, `src/stardag/task.py`,
`src/stardag/parameter.py`, `src/stardag/task_parameter.py`,
`src/stardag/target/serialize.py`) in Lean 4 and proves properties of the
embedded definitions.

Conventions:
* Python `set[str]` values are modelled as `List String` with membership;
* the recursive `_build` is made total with an explicit fuel argument
  (`none` = the recursion did not finish within the given call depth);
* the ambient "file system" (which outputs exist) is a `List String` of
  persisted task ids, so that `complete()` = membership and a task's
  `run()` persists its output, matching the framework contract that `run`
  makes `complete` true;
* SHA-1 and the canonical JSON rendering (`json.dumps` with
  `separators=(",", ":")` and `sort_keys=True`) are implemented
  executably and faithfully to the Python standard library behaviour on
  the value universe used here.
-/

namespace Stardag

/-! ## `TaskDeps` and `_flatten` (src/stardag/build/sequential.py, task.py)

`TaskDeps` mirrors the type alias
`Union[None, Task, Sequence[Task], Mapping[str, Task], Mapping[str, Sequence[Task]]]`
from `task.py`.  Python dicts preserve insertion order, so a mapping is a
list of key/value pairs. -/

inductive TaskDeps (τ : Type) where
  | noDeps : TaskDeps τ
  | one : τ → TaskDeps τ
  | seq : List τ → TaskDeps τ
  | keyed : List (String × τ) → TaskDeps τ
  | keyedSeq : List (String × List τ) → TaskDeps τ
  deriving DecidableEq

/-- Mirrors `_flatten` in `build/sequential.py`: `None → []`, a single task
becomes a singleton, `sum([_flatten(t) for t in list], [])` concatenates the
per-element singletons in order, and a dict flattens its `.values()` in
insertion order. -/
def flattenTaskDeps {τ : Type} : TaskDeps τ → List τ
  | .noDeps => []
  | .one t => [t]
  | .seq ts => (ts.map fun t => [t]).flatten
  | .keyed kvs => (kvs.map fun kv => [kv.2]).flatten
  | .keyedSeq kvs => (kvs.map fun kv => (kv.2.map fun t => [t]).flatten).flatten

@[simp] theorem flattenTaskDeps_noDeps {τ : Type} :
    flattenTaskDeps (τ := τ) .noDeps = [] := rfl

@[simp] theorem flattenTaskDeps_one {τ : Type} (t : τ) :
    flattenTaskDeps (.one t) = [t] := rfl

@[simp] theorem flattenTaskDeps_seq {τ : Type} (ts : List τ) :
    flattenTaskDeps (.seq ts) = ts := by
  induction ts with
  | nil => rfl
  | cons t ts ih => simpa [flattenTaskDeps] using ih

@[simp] theorem flattenTaskDeps_keyed {τ : Type} (kvs : List (String × τ)) :
    flattenTaskDeps (.keyed kvs) = kvs.map (·.2) := by
  induction kvs with
  | nil => rfl
  | cons kv kvs ih => simpa [flattenTaskDeps] using ih

@[simp] theorem flattenTaskDeps_keyedSeq {τ : Type} (kvs : List (String × List τ)) :
    flattenTaskDeps (.keyedSeq kvs) = (kvs.map (·.2)).flatten := by
  induction kvs with
  | nil => rfl
  | cons kv kvs ih =>
    simp only [flattenTaskDeps, List.map_cons, List.flatten_cons] at ih ⊢
    rw [ih]
    congr 1
    exact flattenTaskDeps_seq kv.2

/-! ## The sequential build (src/stardag/build/sequential.py) -/

/-- The static data of a task graph: each task declares its dependencies
(`requires()`) and has a derived `task_id` string. -/
structure TaskGraph (τ : Type) where
  requiresF : τ → TaskDeps τ
  taskIdF : τ → String

/-- The mutable state threaded through `_build`:
* `cache` — the `completion_cache: set[str]` of task ids;
* `world` — the ambient persistent store: the set of task ids whose output
  exists (`task.complete()` ≡ `taskIdF t ∈ world`; `task.run()` persists
  the output, i.e. adds the id);
* `runLog` — the tasks whose `run()` was invoked, newest first. -/
structure BuildState (τ : Type) where
  cache : List String
  world : List String
  runLog : List τ
  deriving DecidableEq

/-- Mirrors `_is_complete`: first the completion-cache membership test, then
`task.complete()` (world membership), which on success memoizes the id. -/
def isCompleteStep {τ : Type} (g : TaskGraph τ) (t : τ) (s : BuildState τ) :
    Bool × BuildState τ :=
  if g.taskIdF t ∈ s.cache then (true, s)
  else if g.taskIdF t ∈ s.world then
    (true, { s with cache := g.taskIdF t :: s.cache })
  else (false, s)

/-- Mirrors the tail of `_build`: `task.run()` (persisting the output, per
the run-makes-complete contract) followed by `completion_cache.add(task.task_id)`. -/
def recordRun {τ : Type} (g : TaskGraph τ) (t : τ) (s : BuildState τ) : BuildState τ :=
  { cache := g.taskIdF t :: s.cache
    world := g.taskIdF t :: s.world
    runLog := t :: s.runLog }

/-- The `for dep in deps: _build(dep, completion_cache)` loop, sequentially
threading the state through a given one-task builder in list order. -/
def buildMany {τ : Type} (f : τ → BuildState τ → Option (BuildState τ)) :
    List τ → BuildState τ → Option (BuildState τ)
  | [], s => some s
  | d :: ds, s =>
    match f d s with
    | none => none
    | some s' => buildMany f ds s'

/-- Mirrors `_build` in `build/sequential.py`, with explicit fuel bounding
the recursion depth (`none` = the recursion did not finish within `fuel`
nested calls; the Python function has no other termination mechanism and
no cycle detection). -/
def buildAux {τ : Type} (g : TaskGraph τ) : Nat → τ → BuildState τ → Option (BuildState τ)
  | 0, _, _ => none
  | fuel + 1, t, s =>
    match isCompleteStep g t s with
    | (true, s₁) => some s₁
    | (false, s₁) =>
      match buildMany (buildAux g fuel) (flattenTaskDeps (g.requiresF t)) s₁ with
      | none => none
      | some s₂ => some (recordRun g t s₂)

/-- Mirrors `build(task, completion_cache=None)`, i.e.
`_build(task, completion_cache or set())`: a falsy argument (absent, or an
empty set) is replaced by a fresh empty set. `world` is the ambient store
of already-persisted outputs. -/
def build {τ : Type} (g : TaskGraph τ) (fuel : Nat) (t : τ)
    (completionCache : Option (List String)) (world : List String) :
    Option (BuildState τ) :=
  let internal : List String :=
    match completionCache with
    | none => []
    | some c => if c.isEmpty then [] else c
  buildAux g fuel t { cache := internal, world := world, runLog := [] }

/-- Mirrors the Python aliasing of the `completion_cache` argument: the
second component is the contents of the *caller's* set object after the
call.  `completion_cache or set()` evaluates to a *fresh* set when the
caller passes an empty set (empty sets are falsy), so only a non-empty
caller set is the very object mutated by `_build`. -/
def buildWithCaller {τ : Type} (g : TaskGraph τ) (fuel : Nat) (t : τ)
    (completionCache : Option (List String)) (world : List String) :
    Option (BuildState τ) × Option (List String) :=
  match completionCache with
  | none => (buildAux g fuel t { cache := [], world := world, runLog := [] }, none)
  | some c =>
    if c.isEmpty then
      (buildAux g fuel t { cache := [], world := world, runLog := [] }, some c)
    else
      match buildAux g fuel t { cache := c, world := world, runLog := [] } with
      | none => (none, some c)
      | some s' => (some s', some s'.cache)

/-! ## Invariants of the sequential build -/

/-- `u` is a declared dependency of `t` (one edge of the dependency graph). -/
def depEdge {τ : Type} (g : TaskGraph τ) (t u : τ) : Prop :=
  u ∈ flattenTaskDeps (g.requiresF t)

instance {τ : Type} [DecidableEq τ] (g : TaskGraph τ) (t u : τ) :
    Decidable (depEdge g t u) :=
  inferInstanceAs (Decidable (u ∈ flattenTaskDeps (g.requiresF t)))

/-- The dependency graph has no (transitive) cycle. -/
def Acyclic {τ : Type} (g : TaskGraph τ) : Prop :=
  ∀ t, ¬ Relation.TransGen (depEdge g) t t

theorem transGen_rank_lt {τ : Type} {g : TaskGraph τ} (rank : τ → Nat)
    (hrank : ∀ t u, depEdge g t u → rank u < rank t) {a b : τ}
    (h : Relation.TransGen (depEdge g) a b) : rank b < rank a := by
  induction h with
  | single h => exact hrank _ _ h
  | tail _ h ih => exact lt_trans (hrank _ _ h) ih

/-- A graph admitting a rank function that strictly decreases along
dependency edges is acyclic. -/
theorem acyclic_of_rank {τ : Type} (g : TaskGraph τ) (rank : τ → Nat)
    (hrank : ∀ t u, depEdge g t u → rank u < rank t) : Acyclic g :=
  fun t h => lt_irrefl _ (transGen_rank_lt rank hrank h)

/-- Everything a single successful `_build` call guarantees: the run log
grows by a block `new` of newly-run tasks; the persisted world grows by
exactly their ids; the completion cache only grows, and only by run ids or
ids that were already persisted; every newly-run task was incomplete at
entry; every newly-run task is the call's own task or a transitive
dependency of it; and the built task's id ends up memoized. -/
def BuildOk {τ : Type} (g : TaskGraph τ) (t : τ) (s s' : BuildState τ) : Prop :=
  ∃ new : List τ,
    s'.runLog = new ++ s.runLog ∧
    s'.world = new.map g.taskIdF ++ s.world ∧
    (∀ id ∈ s.cache, id ∈ s'.cache) ∧
    (∀ id ∈ s'.cache, id ∈ new.map g.taskIdF ∨ id ∈ s.world ∨ id ∈ s.cache) ∧
    (∀ u ∈ new, g.taskIdF u ∉ s.world) ∧
    (∀ u ∈ new, u = t ∨ Relation.TransGen (depEdge g) t u) ∧
    g.taskIdF t ∈ s'.cache

/-- The analogue of `BuildOk` for the `for dep in deps` loop over a list of
tasks: additionally, every task of the list is memoized-complete at exit. -/
def BuildManyOk {τ : Type} (g : TaskGraph τ) (ds : List τ) (s s' : BuildState τ) : Prop :=
  ∃ new : List τ,
    s'.runLog = new ++ s.runLog ∧
    s'.world = new.map g.taskIdF ++ s.world ∧
    (∀ id ∈ s.cache, id ∈ s'.cache) ∧
    (∀ id ∈ s'.cache, id ∈ new.map g.taskIdF ∨ id ∈ s.world ∨ id ∈ s.cache) ∧
    (∀ u ∈ new, g.taskIdF u ∉ s.world) ∧
    (∀ u ∈ new, ∃ d ∈ ds, u = d ∨ Relation.TransGen (depEdge g) d u) ∧
    (∀ d ∈ ds, g.taskIdF d ∈ s'.cache)

theorem buildMany_ok {τ : Type} {g : TaskGraph τ} {fuel : Nat}
    (IH : ∀ t s s', buildAux g fuel t s = some s' → BuildOk g t s s') :
    ∀ ds s s', buildMany (buildAux g fuel) ds s = some s' → BuildManyOk g ds s s' := by
  intro ds
  induction ds with
  | nil =>
    intro s s' h
    simp only [buildMany] at h
    refine ⟨[], ?_, ?_, ?_, ?_, ?_, ?_, ?_⟩ <;> simp_all
  | cons d ds ih =>
    intro s s' h
    simp only [buildMany] at h
    rcases h1 : buildAux g fuel d s with _ | s₁
    · rw [h1] at h; exact absurd h (by simp)
    rw [h1] at h
    obtain ⟨n₁, hlog₁, hworld₁, hcmono₁, hcsub₁, hfresh₁, hreach₁, hpost₁⟩ := IH d s s₁ h1
    obtain ⟨n₂, hlog₂, hworld₂, hcmono₂, hcsub₂, hfresh₂, hreach₂, hpost₂⟩ := ih s₁ s' h
    refine ⟨n₂ ++ n₁, ?_, ?_, ?_, ?_, ?_, ?_, ?_⟩
    · rw [hlog₂, hlog₁, List.append_assoc]
    · rw [hworld₂, hworld₁, List.map_append, List.append_assoc]
    · exact fun id hid => hcmono₂ id (hcmono₁ id hid)
    · intro id hid
      rcases hcsub₂ id hid with h2 | h2 | h2
      · exact Or.inl (by simp only [List.map_append, List.mem_append]; exact Or.inl h2)
      · rw [hworld₁] at h2
        rcases List.mem_append.mp h2 with h3 | h3
        · exact Or.inl (by simp only [List.map_append, List.mem_append]; exact Or.inr h3)
        · exact Or.inr (Or.inl h3)
      · rcases hcsub₁ id h2 with h3 | h3 | h3
        · exact Or.inl (by simp only [List.map_append, List.mem_append]; exact Or.inr h3)
        · exact Or.inr (Or.inl h3)
        · exact Or.inr (Or.inr h3)
    · intro u hu
      rcases List.mem_append.mp hu with h2 | h2
      · intro hw
        exact hfresh₂ u h2 (by rw [hworld₁]; exact List.mem_append.mpr (Or.inr hw))
      · exact hfresh₁ u h2
    · intro u hu
      rcases List.mem_append.mp hu with h2 | h2
      · obtain ⟨d', hd', hud'⟩ := hreach₂ u h2
        exact ⟨d', List.mem_cons_of_mem _ hd', hud'⟩
      · exact ⟨d, List.mem_cons_self _ _, hreach₁ u h2⟩
    · intro d' hd'
      rcases List.mem_cons.mp hd' with h2 | h2
      · subst h2; exact hcmono₂ _ hpost₁
      · exact hpost₂ d' h2

theorem buildAux_ok {τ : Type} (g : TaskGraph τ) :
    ∀ fuel t s s', buildAux g fuel t s = some s' → BuildOk g t s s' := by
  intro fuel
  induction fuel with
  | zero => intro t s s' h; exact absurd h (by simp [buildAux])
  | succ fuel IH =>
    intro t s s' h
    by_cases hc : g.taskIdF t ∈ s.cache
    · have hs' : s' = s := by
        simp only [buildAux, isCompleteStep, if_pos hc] at h
        exact (Option.some_inj.mp h).symm
      subst hs'
      exact ⟨[], by simp, by simp, fun id hid => hid, fun id hid => Or.inr (Or.inr hid),
        by simp, by simp, hc⟩
    · by_cases hw : g.taskIdF t ∈ s.world
      · have hs' : s' = { s with cache := g.taskIdF t :: s.cache } := by
          simp only [buildAux, isCompleteStep, if_neg hc, if_pos hw] at h
          exact (Option.some_inj.mp h).symm
        subst hs'
        refine ⟨[], by simp, by simp, fun id hid => List.mem_cons_of_mem _ hid, ?_,
          by simp, by simp, List.mem_cons_self _ _⟩
        intro id hid
        rcases List.mem_cons.mp hid with h2 | h2
        · exact Or.inr (Or.inl (h2 ▸ hw))
        · exact Or.inr (Or.inr h2)
      · simp only [buildAux, isCompleteStep, if_neg hc, if_neg hw] at h
        rcases h2 : buildMany (buildAux g fuel) (flattenTaskDeps (g.requiresF t)) s
          with _ | s₂
        · rw [h2] at h; exact absurd h (by simp)
        rw [h2] at h
        have hs' : s' = recordRun g t s₂ := by
          exact (Option.some_inj.mp h).symm
        subst hs'
        obtain ⟨nd, hlog, hworld, hcmono, hcsub, hfresh, hreach, hpost⟩ :=
          buildMany_ok IH _ s s₂ h2
        refine ⟨t :: nd, ?_, ?_, ?_, ?_, ?_, ?_, ?_⟩
        · simp only [recordRun, hlog, List.cons_append]
        · simp only [recordRun, hworld, List.map_cons, List.cons_append]
        · exact fun id hid => List.mem_cons_of_mem _ (hcmono id hid)
        · intro id hid
          rcases List.mem_cons.mp hid with h3 | h3
          · exact Or.inl (by simp [h3])
          · rcases hcsub id h3 with h4 | h4 | h4
            · exact Or.inl (List.mem_cons_of_mem _ h4)
            · exact Or.inr (Or.inl h4)
            · exact Or.inr (Or.inr h4)
        · intro u hu
          rcases List.mem_cons.mp hu with h3 | h3
          · exact h3 ▸ hw
          · exact hfresh u h3
        · intro u hu
          rcases List.mem_cons.mp hu with h3 | h3
          · exact Or.inl h3
          · obtain ⟨d, hd, hud⟩ := hreach u h3
            have hedge : depEdge g t d := hd
            rcases hud with h4 | h4
            · exact Or.inr (h4 ▸ Relation.TransGen.single hedge)
            · exact Or.inr (Relation.TransGen.head hedge h4)
        · exact List.mem_cons_self _ _

/-- The run-log invariant: no task has run twice, and every run task's
output is persisted. -/
def LogInv {τ : Type} (g : TaskGraph τ) (s : BuildState τ) : Prop :=
  s.runLog.Nodup ∧ ∀ u ∈ s.runLog, g.taskIdF u ∈ s.world

theorem buildAux_logInv {τ : Type} {g : TaskGraph τ} (hacyc : Acyclic g) :
    ∀ fuel t s s', buildAux g fuel t s = some s' → LogInv g s → LogInv g s' := by
  intro fuel
  induction fuel with
  | zero => intro t s s' h; exact absurd h (by simp [buildAux])
  | succ fuel IH =>
    have IHmany : ∀ ds s s', buildMany (buildAux g fuel) ds s = some s' →
        LogInv g s → LogInv g s' := by
      intro ds
      induction ds with
      | nil =>
        intro s s' h hinv
        simp only [buildMany] at h
        exact (Option.some_inj.mp h) ▸ hinv
      | cons d ds ih =>
        intro s s' h hinv
        simp only [buildMany] at h
        rcases h1 : buildAux g fuel d s with _ | s₁
        · rw [h1] at h; exact absurd h (by simp)
        rw [h1] at h
        exact ih s₁ s' h (IH d s s₁ h1 hinv)
    intro t s s' h hinv
    by_cases hc : g.taskIdF t ∈ s.cache
    · have hs' : s' = s := by
        simp only [buildAux, isCompleteStep, if_pos hc] at h
        exact (Option.some_inj.mp h).symm
      exact hs' ▸ hinv
    · by_cases hw : g.taskIdF t ∈ s.world
      · have hs' : s' = { s with cache := g.taskIdF t :: s.cache } := by
          simp only [buildAux, isCompleteStep, if_neg hc, if_pos hw] at h
          exact (Option.some_inj.mp h).symm
        subst hs'
        exact ⟨hinv.1, hinv.2⟩
      · simp only [buildAux, isCompleteStep, if_neg hc, if_neg hw] at h
        rcases h2 : buildMany (buildAux g fuel) (flattenTaskDeps (g.requiresF t)) s
          with _ | s₂
        · rw [h2] at h; exact absurd h (by simp)
        rw [h2] at h
        have hs' : s' = recordRun g t s₂ := by
          exact (Option.some_inj.mp h).symm
        subst hs'
        have hinv₂ : LogInv g s₂ := IHmany _ s s₂ h2 hinv
        obtain ⟨nd, hlog, hworld, _, _, hfresh, hreach, _⟩ :=
          buildMany_ok (buildAux_ok g fuel) _ s s₂ h2
        have hnotin : t ∉ s₂.runLog := by
          intro hmem
          rw [hlog] at hmem
          rcases List.mem_append.mp hmem with h3 | h3
          · obtain ⟨d, hd, htd⟩ := hreach t h3
            have hedge : depEdge g t d := hd
            rcases htd with h4 | h4
            · subst h4
              exact hacyc t (Relation.TransGen.single hedge)
            · exact hacyc t (Relation.TransGen.head hedge h4)
          · exact hw (hinv.2 t h3)
        refine ⟨List.nodup_cons.mpr ⟨hnotin, hinv₂.1⟩, ?_⟩
        intro u hu
        rcases List.mem_cons.mp hu with h3 | h3
        · exact h3 ▸ List.mem_cons_self _ _
        · exact List.mem_cons_of_mem _ (hinv₂.2 u h3)

/-- A task that directly requires itself and whose output does not exist:
`_build` recurses on it forever, so it fails to finish at every recursion
depth (there is no cycle check anywhere in `_build`). -/
theorem buildAux_selfCycle_none {τ : Type} (g : TaskGraph τ) (t : τ)
    (hreq : g.requiresF t = .one t) :
    ∀ fuel (s : BuildState τ), g.taskIdF t ∉ s.cache → g.taskIdF t ∉ s.world →
      buildAux g fuel t s = none := by
  intro fuel
  induction fuel with
  | zero => intro s _ _; rfl
  | succ fuel IH =>
    intro s hc hw
    simp only [buildAux, isCompleteStep, if_neg hc, if_neg hw, hreq,
      flattenTaskDeps_one, buildMany, IH s hc hw]

/-! ## Concrete task graphs used as witnesses -/

/-- A single task with no dependencies. -/
def soloGraph : TaskGraph Unit :=
  { requiresF := fun _ => .noDeps, taskIdF := fun _ => "solo" }

/-- A task that requires itself: the smallest cyclic dependency graph. -/
def cyclicGraph : TaskGraph Unit :=
  { requiresF := fun _ => .one (), taskIdF := fun _ => "cyc" }

/-- Tasks of a diamond-shaped DAG: `root` requires `a` and `b`, which both
require `leaf`. -/
inductive DTask where
  | root | a | b | leaf
  deriving DecidableEq, Fintype

/-- The diamond dependency graph. -/
def diamondGraph : TaskGraph DTask where
  requiresF := fun t =>
    match t with
    | .root => .seq [.a, .b]
    | .a => .one .leaf
    | .b => .one .leaf
    | .leaf => .noDeps
  taskIdF := fun t =>
    match t with
    | .root => "idroot"
    | .a => "ida"
    | .b => "idb"
    | .leaf => "idleaf"

/-- A rank function certifying that the diamond graph is acyclic. -/
def diamondRank : DTask → Nat
  | .root => 2
  | .a => 1
  | .b => 1
  | .leaf => 0

/-! ## Claims C1, C3, C7, C10 -/

/-- Claim C1, counterexample.  The claim asserts that `build(A)` on a task
`A` whose dependency graph contains a cycle fails with a
`CyclicDependencyError`, maintained through a "currently being visited"
path set.  In the code (`build/sequential.py`) no such error type and no
such set exist: `_build` blindly recurses into the cycle, so for the
one-task cycle `build(A)` never returns a result at any recursion depth —
it neither completes nor raises a cyclic-dependency error (in Python it
dies of stack exhaustion). -/
theorem claim_C1_counterexample :
    ¬ ∃ (fuel : Nat) (s : BuildState Unit), build cyclicGraph fuel () none [] = some s := by
  rintro ⟨fuel, s, h⟩
  rw [show build cyclicGraph fuel () none [] =
      buildAux cyclicGraph fuel () { cache := [], world := [], runLog := [] } from rfl,
    buildAux_selfCycle_none cyclicGraph () rfl fuel _ (by simp) (by simp)] at h
  exact absurd h (by simp)

/-- Claim C1, amended: the sequential build has no cycle detection at all
(no `CyclicDependencyError` type, no visited-path set); invoking `build`
on a task that requires itself and whose output does not exist never
completes, at any recursion depth.  (`run()` is also never reached on such
a task: no state is ever produced.) -/
theorem claim_C1 {τ : Type} (g : TaskGraph τ) (t : τ) (fuel : Nat)
    (world : List String) (hreq : g.requiresF t = .one t)
    (hw : g.taskIdF t ∉ world) :
    build g fuel t none world = none := by
  rw [show build g fuel t none world =
      buildAux g fuel t { cache := [], world := world, runLog := [] } from rfl]
  exact buildAux_selfCycle_none g t hreq fuel _ (by simp) hw

/-- Witness for `claim_C1` at the concrete one-task cycle. -/
theorem claim_C1_witness :
    cyclicGraph.requiresF () = .one () ∧ cyclicGraph.taskIdF () ∉ ([] : List String) ∧
      build cyclicGraph 37 () none [] = none :=
  ⟨rfl, by simp, claim_C1 cyclicGraph () 37 [] rfl (by simp)⟩

/-- Claim C3: for an acyclic graph whose tasks persist their outputs in
`run()` (so `complete()` becomes true — this is the `world`/`recordRun`
model), a successful `build(root)` runs every task at most once (the run
log has no duplicates), and a second invocation of `build(root)` against
the resulting world performs zero `run()` calls: it returns immediately
with an empty run log, the root being skipped by the `complete()` check. -/
theorem claim_C3 {τ : Type} (g : TaskGraph τ) (root : τ) (fuel₁ fuel₂ : Nat)
    (world₀ : List String) (s₁ : BuildState τ) (hacyc : Acyclic g)
    (h₁ : build g fuel₁ root none world₀ = some s₁) (hfuel₂ : 0 < fuel₂) :
    s₁.runLog.Nodup ∧
      build g fuel₂ root none s₁.world =
        some { cache := [g.taskIdF root], world := s₁.world, runLog := [] } := by
  rw [show build g fuel₁ root none world₀ =
      buildAux g fuel₁ root { cache := [], world := world₀, runLog := [] } from rfl] at h₁
  have hlog : LogInv g s₁ :=
    buildAux_logInv hacyc fuel₁ root _ s₁ h₁ ⟨List.nodup_nil, by simp⟩
  obtain ⟨new, _, hworld, _, hcsub, _, _, hpost⟩ := buildAux_ok g fuel₁ root _ s₁ h₁
  have hmem : g.taskIdF root ∈ s₁.world := by
    rcases hcsub _ hpost with h2 | h2 | h2
    · rw [hworld]; exact List.mem_append.mpr (Or.inl h2)
    · rw [hworld]; exact List.mem_append.mpr (Or.inr h2)
    · exact absurd h2 (by simp)
  refine ⟨hlog.1, ?_⟩
  obtain ⟨k, rfl⟩ : ∃ k, fuel₂ = k + 1 :=
    ⟨fuel₂ - 1, (Nat.succ_pred_eq_of_pos hfuel₂).symm⟩
  rw [show build g (k + 1) root none s₁.world =
      buildAux g (k + 1) root { cache := [], world := s₁.world, runLog := [] } from rfl]
  simp only [buildAux, isCompleteStep, List.not_mem_nil, if_neg, if_pos hmem]
  rfl

/-- The state produced by building the diamond root from an empty world. -/
def diamondFinal : BuildState DTask :=
  { cache := ["idroot", "idb", "ida", "idleaf"]
    world := ["idroot", "idb", "ida", "idleaf"]
    runLog := [.root, .b, .a, .leaf] }

/-- Witness for `claim_C3`: the diamond DAG built from an empty world. -/
theorem claim_C3_witness :
    diamondFinal.runLog.Nodup ∧
      build diamondGraph 1 .root none diamondFinal.world =
        some ⟨[diamondGraph.taskIdF .root], diamondFinal.world, []⟩ :=
  claim_C3 diamondGraph .root 5 1 [] diamondFinal
    (acyclic_of_rank diamondGraph diamondRank (by decide))
    (by decide) (by decide)

/-- Claim C7: if a task is incomplete, a successful `_build` first builds
the flattened dependency list (`None` / single / sequence / mapping /
mapping of sequences, flattened in declaration order) sequentially and in
declared order through `buildMany`, and only then invokes the task's own
`run()`: the task's run is the most recent entry of the final run log,
every dependency is complete (memoized and persisted) in the state the
task runs from, and every run performed inside the dependency phase is of
a declared dependency or of one of its transitive dependencies. -/
theorem claim_C7 {τ : Type} (g : TaskGraph τ) (t : τ) (fuel : Nat)
    (s s' : BuildState τ) (hcw : ∀ id ∈ s.cache, id ∈ s.world)
    (hw : g.taskIdF t ∉ s.world)
    (h : buildAux g (fuel + 1) t s = some s') :
    ∃ sd, buildMany (buildAux g fuel) (flattenTaskDeps (g.requiresF t)) s = some sd ∧
      s' = recordRun g t sd ∧
      s'.runLog = t :: sd.runLog ∧
      s'.world = g.taskIdF t :: sd.world ∧
      (∀ d ∈ flattenTaskDeps (g.requiresF t),
        g.taskIdF d ∈ sd.cache ∧ g.taskIdF d ∈ sd.world) ∧
      ∃ new, sd.runLog = new ++ s.runLog ∧
        ∀ u ∈ new, ∃ d ∈ flattenTaskDeps (g.requiresF t),
          u = d ∨ Relation.TransGen (depEdge g) d u := by
  have hc : g.taskIdF t ∉ s.cache := fun h2 => hw (hcw _ h2)
  simp only [buildAux, isCompleteStep, if_neg hc, if_neg hw] at h
  rcases h2 : buildMany (buildAux g fuel) (flattenTaskDeps (g.requiresF t)) s with _ | sd
  · rw [h2] at h; exact absurd h (by simp)
  rw [h2] at h
  have hs' : s' = recordRun g t sd := (Option.some_inj.mp h).symm
  obtain ⟨new, hlog, hworld, hcmono, hcsub, _, hreach, hpost⟩ :=
    buildMany_ok (buildAux_ok g fuel) _ s sd h2
  have hcw' : ∀ id ∈ sd.cache, id ∈ sd.world := by
    intro id hid
    rcases hcsub id hid with h3 | h3 | h3
    · rw [hworld]; exact List.mem_append.mpr (Or.inl h3)
    · rw [hworld]; exact List.mem_append.mpr (Or.inr h3)
    · rw [hworld]; exact List.mem_append.mpr (Or.inr (hcw id h3))
  refine ⟨sd, rfl, hs', by rw [hs']; rfl, by rw [hs']; rfl, ?_, new, hlog, hreach⟩
  exact fun d hd => ⟨hpost d hd, hcw' _ (hpost d hd)⟩

/-- Witness for `claim_C7`: building the diamond root from scratch. -/
theorem claim_C7_witness :
    ∃ sd, buildMany (buildAux diamondGraph 4) (flattenTaskDeps (diamondGraph.requiresF .root))
        { cache := [], world := [], runLog := [] } = some sd ∧
      diamondFinal = recordRun diamondGraph .root sd ∧
      diamondFinal.runLog = .root :: sd.runLog ∧
      diamondFinal.world = diamondGraph.taskIdF .root :: sd.world ∧
      (∀ d ∈ flattenTaskDeps (diamondGraph.requiresF .root),
        diamondGraph.taskIdF d ∈ sd.cache ∧ diamondGraph.taskIdF d ∈ sd.world) ∧
      ∃ new, sd.runLog = new ++
          BuildState.runLog ({ cache := [], world := [], runLog := [] } : BuildState DTask) ∧
        ∀ u ∈ new, ∃ d ∈ flattenTaskDeps (diamondGraph.requiresF .root),
          u = d ∨ Relation.TransGen (depEdge diamondGraph) d u :=
  claim_C7 diamondGraph .root 4 { cache := [], world := [], runLog := [] } diamondFinal
    (by simp) (by simp [diamondGraph]) (by decide)

/-- Claim C10: `build(task, completion_cache)` evaluates
`completion_cache or set()`.  An *empty* caller set is falsy, so the build
runs on a fresh internal set, behaves exactly like `build(task)`, and the
caller's empty set is left unchanged — completion state cannot be
collected by passing in an initially empty set.  A *non-empty* caller set
is used directly and mutated in place: afterwards it holds the final
completion cache, which extends its original contents. -/
theorem claim_C10 :
    (∀ (τ : Type) (g : TaskGraph τ) (fuel : Nat) (t : τ) (world : List String),
      buildWithCaller g fuel t (some []) world =
        (build g fuel t none world, some [])) ∧
    (∀ (τ : Type) (g : TaskGraph τ) (fuel : Nat) (t : τ) (world c : List String)
      (s' : BuildState τ), c ≠ [] →
      buildAux g fuel t { cache := c, world := world, runLog := [] } = some s' →
      buildWithCaller g fuel t (some c) world = (some s', some s'.cache) ∧
        ∀ id ∈ c, id ∈ s'.cache) := by
  constructor
  · intro τ g fuel t world
    rfl
  · intro τ g fuel t world c s' hc h
    have hce : c.isEmpty = false := by
      cases c with
      | nil => exact absurd rfl hc
      | cons x xs => rfl
    constructor
    · simp only [buildWithCaller, hce, if_neg (Bool.false_ne_true ∘ id), h]
    · obtain ⟨_, _, _, hcmono, _, _, _, _⟩ := buildAux_ok g fuel t _ s' h
      exact hcmono

/-- The state produced by building the solo task from caller cache `["x"]`. -/
def soloFinal : BuildState Unit :=
  { cache := ["solo", "x"], world := ["solo"], runLog := [()] }

/-- Witness for `claim_C10`: the solo task with an empty caller set (left
untouched) and with the non-empty caller set `["x"]` (mutated in place). -/
theorem claim_C10_witness :
    buildWithCaller soloGraph 1 () (some []) [] = (build soloGraph 1 () none [], some []) ∧
      (buildWithCaller soloGraph 1 () (some ["x"]) [] = (some soloFinal, some soloFinal.cache) ∧
        ∀ id ∈ ["x"], id ∈ soloFinal.cache) :=
  ⟨claim_C10.1 Unit soloGraph 1 () [],
    claim_C10.2 Unit soloGraph 1 () [] ["x"] soloFinal (by simp) (by decide)⟩

/-! ## Canonical JSON (`json.dumps(obj, separators=(",", ":"), sort_keys=True)`)

`Json` models the values produced by `_id_hash_jsonable` and pydantic
`mode="json"` dumps on the parameter universe used here (ints, strings,
nested objects, arrays).  The renderer reproduces CPython's `json.dumps`
with `separators=(",", ":")`, `sort_keys=True` and the default
`ensure_ascii=True`. -/

inductive Json where
  | null : Json
  | bool : Bool → Json
  | num : Int → Json
  | str : String → Json
  | arr : List Json → Json
  | obj : List (String × Json) → Json

/-- One decimal digit character (`0 ≤ n < 10`). -/
def digitChar (n : Nat) : Char := Char.ofNat (48 + n)

/-- The decimal digits of `n`, least significant first (`[]` for `0`). -/
def natDecimalAux (n : Nat) : List Char :=
  if h : n = 0 then []
  else digitChar (n % 10) :: natDecimalAux (n / 10)
termination_by n
decreasing_by exact Nat.div_lt_self (Nat.pos_of_ne_zero h) (by norm_num)

/-- CPython's `str` rendering of a natural number. -/
def natDecimal (n : Nat) : List Char :=
  if n = 0 then ['0'] else (natDecimalAux n).reverse

/-- CPython's `str`/`json.dumps` rendering of an `int`. -/
def intToDecimalString (i : Int) : String :=
  if i < 0 then String.mk ('-' :: natDecimal i.natAbs)
  else String.mk (natDecimal i.natAbs)

/-- One lowercase hexadecimal digit character (`0 ≤ n < 16`). -/
def hexDigitChar (n : Nat) : Char :=
  if n < 10 then Char.ofNat (48 + n) else Char.ofNat (87 + n)

/-- Four lowercase hex digits of a 16-bit value (most significant first). -/
def hex4 (n : Nat) : List Char :=
  [hexDigitChar (n / 4096 % 16), hexDigitChar (n / 256 % 16),
    hexDigitChar (n / 16 % 16), hexDigitChar (n % 16)]

/-- CPython `json.dumps` escaping of one character (`ensure_ascii=True`):
the two-character escapes, `\uXXXX` for other control and non-ASCII
characters, and surrogate pairs above the BMP. -/
def escapeChar (c : Char) : List Char :=
  if c = '\"' then ['\\', '\"']
  else if c = '\\' then ['\\', '\\']
  else if c.toNat = 10 then ['\\', 'n']
  else if c.toNat = 9 then ['\\', 't']
  else if c.toNat = 13 then ['\\', 'r']
  else if c.toNat = 8 then ['\\', 'b']
  else if c.toNat = 12 then ['\\', 'f']
  else if c.toNat < 32 then '\\' :: 'u' :: hex4 c.toNat
  else if c.toNat < 127 then [c]
  else if c.toNat < 65536 then '\\' :: 'u' :: hex4 c.toNat
  else
    ('\\' :: 'u' :: hex4 (55296 + (c.toNat - 65536) / 1024)) ++
      ('\\' :: 'u' :: hex4 (56320 + (c.toNat - 65536) % 1024))

/-- A JSON string literal: quoted, characters escaped. -/
def renderStringChars (s : String) : List Char :=
  '\"' :: (s.data.map escapeChar).flatten ++ ['\"']

/-- CPython compares `str` values lexicographically by code point; this is
that comparison on the underlying character lists, kernel-computable. -/
def charListLt : List Char → List Char → Bool
  | [], [] => false
  | [], _ :: _ => true
  | _ :: _, [] => false
  | c :: cs, d :: ds =>
    if c.toNat < d.toNat then true
    else if d.toNat < c.toNat then false
    else charListLt cs ds

/-- CPython `a < b` on strings. -/
def strLtB (a b : String) : Bool := charListLt a.data b.data

/-- Insert a key/value pair into a key-sorted field list. -/
def insertField (kv : String × Json) : List (String × Json) → List (String × Json)
  | [] => [kv]
  | kv' :: rest =>
    if strLtB kv.1 kv'.1 then kv :: kv' :: rest else kv' :: insertField kv rest

/-- Sort an object's fields by key (what `sort_keys=True` does per object). -/
def sortFields (kvs : List (String × Json)) : List (String × Json) :=
  kvs.foldr insertField []

mutual

/-- Recursively sort every object's fields by key, as `sort_keys=True`
does at every nesting level during serialization. -/
def sortJson : Json → Json
  | .null => .null
  | .bool b => .bool b
  | .num n => .num n
  | .str s => .str s
  | .arr es => .arr (sortJsonList es)
  | .obj kvs => .obj (sortFields (sortJsonFields kvs))

def sortJsonList : List Json → List Json
  | [] => []
  | e :: es => sortJson e :: sortJsonList es

def sortJsonFields : List (String × Json) → List (String × Json)
  | [] => []
  | kv :: kvs => (kv.1, sortJson kv.2) :: sortJsonFields kvs

end

mutual

/-- Serialize a JSON value with separators `(",", ":")` (no whitespace). -/
def renderJson : Json → List Char
  | .null => "null".data
  | .bool true => "true".data
  | .bool false => "false".data
  | .num n => (intToDecimalString n).data
  | .str s => renderStringChars s
  | .arr es => '[' :: renderJsonList es ++ [']']
  | .obj kvs => '\x7b' :: renderJsonFields kvs ++ ['\x7d']

def renderJsonList : List Json → List Char
  | [] => []
  | [e] => renderJson e
  | e :: e' :: es => renderJson e ++ ',' :: renderJsonList (e' :: es)

def renderJsonFields : List (String × Json) → List Char
  | [] => []
  | [kv] => renderStringChars kv.1 ++ ':' :: renderJson kv.2
  | kv :: kv' :: kvs =>
    renderStringChars kv.1 ++ ':' :: renderJson kv.2 ++ ',' :: renderJsonFields (kv' :: kvs)

end

/-- Mirrors `_hash_safe_json_dumps` in `task.py`:
`json.dumps(obj, separators=(",", ":"), sort_keys=True)` — fixed
separators and (deep) sorted keys for a stable hash. -/
def hashSafeJsonDumps (j : Json) : String :=
  String.mk (renderJson (sortJson j))

/-! ## UTF-8 and SHA-1 (`str.encode("utf-8")`, `hashlib.sha1(...).hexdigest()`) -/

/-- The UTF-8 encoding of one code point (as byte values). -/
def utf8Bytes (c : Char) : List Nat :=
  let n := c.toNat
  if n < 128 then [n]
  else if n < 2048 then [192 + n / 64, 128 + n % 64]
  else if n < 65536 then [224 + n / 4096, 128 + n / 64 % 64, 128 + n % 64]
  else [240 + n / 262144, 128 + n / 4096 % 64, 128 + n / 64 % 64, 128 + n % 64]

/-- The UTF-8 encoding of a string (as byte values). -/
def strUtf8 (s : String) : List Nat :=
  (s.data.map utf8Bytes).flatten

/-- Truncation to a 32-bit word. -/
def w32 (n : Nat) : Nat := n % 4294967296

/-- Left rotation of a 32-bit word by `b` bits. -/
def rotl (b n : Nat) : Nat := n * 2 ^ b % 4294967296 + n / 2 ^ (32 - b)

/-- SHA-1 message padding: `0x80`, zeros to 56 mod 64, then the bit length
as eight big-endian bytes. -/
def sha1Pad (msg : List Nat) : List Nat :=
  let len := msg.length
  let zeros := List.replicate ((119 - len % 64) % 64) 0
  let bitLen := 8 * len
  msg ++ 128 :: zeros ++
    [bitLen / 72057594037927936 % 256, bitLen / 281474976710656 % 256,
      bitLen / 1099511627776 % 256, bitLen / 4294967296 % 256,
      bitLen / 16777216 % 256, bitLen / 65536 % 256, bitLen / 256 % 256, bitLen % 256]

/-- Big-endian 32-bit words from a byte list. -/
def bytesToWords : List Nat → List Nat
  | b0 :: b1 :: b2 :: b3 :: rest =>
    (b0 * 16777216 + b1 * 65536 + b2 * 256 + b3) :: bytesToWords rest
  | _ => []

/-- Extend the 16 schedule words to 80 (kept newest-first internally). -/
def sha1Extend : Nat → List Nat → List Nat
  | 0, rws => rws
  | k + 1, rws =>
    sha1Extend k
      (rotl 1 (rws.getD 2 0 ^^^ rws.getD 7 0 ^^^ rws.getD 13 0 ^^^ rws.getD 15 0) :: rws)

/-- The 80-word message schedule of one 64-byte chunk. -/
def sha1Schedule (chunk : List Nat) : List Nat :=
  (sha1Extend 64 (bytesToWords chunk).reverse).reverse

/-- The round function `f` of SHA-1. -/
def sha1F (i b c d : Nat) : Nat :=
  if i < 20 then b &&& c ||| (4294967295 - b) &&& d
  else if i < 40 then b ^^^ c ^^^ d
  else if i < 60 then b &&& c ||| b &&& d ||| c &&& d
  else b ^^^ c ^^^ d

/-- The round constants `K` of SHA-1. -/
def sha1K (i : Nat) : Nat :=
  if i < 20 then 1518500249
  else if i < 40 then 1859775393
  else if i < 60 then 2400959708
  else 3395469782

/-- The 80 compression rounds over the indexed schedule. -/
def sha1Rounds : List (Nat × Nat) → Nat × Nat × Nat × Nat × Nat → Nat × Nat × Nat × Nat × Nat
  | [], st => st
  | (i, wi) :: rest, (a, b, c, d, e) =>
    sha1Rounds rest
      (w32 (rotl 5 a + sha1F i b c d + e + sha1K i + wi), a, rotl 30 b, c, d)

/-- Process one 64-byte chunk into the running hash state. -/
def sha1Chunk (h : Nat × Nat × Nat × Nat × Nat) (chunk : List Nat) :
    Nat × Nat × Nat × Nat × Nat :=
  let (a, b, c, d, e) := sha1Rounds ((List.range 80).zip (sha1Schedule chunk)) h
  (w32 (h.1 + a), w32 (h.2.1 + b), w32 (h.2.2.1 + c), w32 (h.2.2.2.1 + d), w32 (h.2.2.2.2 + e))

/-- Split a byte list into 64-byte chunks. -/
def chunks64 (l : List Nat) : List (List Nat) :=
  if h : l = [] then []
  else l.take 64 :: chunks64 (l.drop 64)
termination_by l.length
decreasing_by
  rw [List.length_drop]
  have : 0 < l.length := List.length_pos.mpr h
  omega

/-- The SHA-1 state after hashing a byte message. -/
def sha1State (msg : List Nat) : Nat × Nat × Nat × Nat × Nat :=
  (chunks64 (sha1Pad msg)).foldl sha1Chunk
    (1732584193, 4023233417, 2562383102, 271733878, 3285377520)

/-- The SHA-1 digest of a byte message as a 160-bit natural number. -/
def sha1Nat (msg : List Nat) : Nat :=
  match sha1State msg with
  | (h0, h1, h2, h3, h4) =>
    h0 * 2 ^ 128 + h1 * 2 ^ 96 + h2 * 2 ^ 64 + h3 * 2 ^ 32 + h4

/-- `len` lowercase hex digits of `n`, most significant first. -/
def natToHexPadded : Nat → Nat → List Char
  | 0, _ => []
  | len + 1, n => natToHexPadded len (n / 16) ++ [hexDigitChar (n % 16)]

/-- `hashlib.sha1(msg).hexdigest()`: 40 lowercase hex characters. -/
def sha1Hex (msg : List Nat) : String :=
  String.mk (natToHexPadded 40 (sha1Nat msg))

/-- Mirrors `get_str_hash` in `task.py`:
`sha1(str_.encode("utf-8")).hexdigest()`. -/
def get_str_hash (str_ : String) : String :=
  sha1Hex (strUtf8 str_)

/-! ## The task parameter universe and `task_id` (task.py, parameter.py,
task_parameter.py)

`TaskModel` is a deep embedding of concrete task instances: namespace,
family and the declared parameter fields in declaration order.  Each field
carries its `_ParameterConfig`: the `id_hash_include` policy (a `Bool`, as
produced by `IDHashInclude(b)` / the `IDHashExclude` annotation) and which
`IDHasherABC` implementation the field's metadata selected (`IDHasher`
by default, `TaskSetHasher` for `TaskSet` fields). -/

/-- Which `IDHasherABC` a field uses. -/
inductive HasherKind where
  | default : HasherKind
  | taskSet : HasherKind
  deriving DecidableEq

mutual

/-- A concrete task instance: namespace, family and parameter fields in
declaration order. -/
inductive TaskModel where
  | mk : String → String → List ParamField → TaskModel

/-- One declared parameter field: name, current value, `id_hash_include`
policy and selected hasher. -/
inductive ParamField where
  | mk : String → ParamValue → Bool → HasherKind → ParamField

/-- A parameter value: plain JSON-able values, a nested task, or a
frozen set of tasks (kept in construction order). -/
inductive ParamValue where
  | int : Int → ParamValue
  | str : String → ParamValue
  | task : TaskModel → ParamValue
  | taskSet : List TaskModel → ParamValue

end

/-- Insertion into a sorted list of strings (code-point order, matching
CPython `sorted` on `str`). -/
def insertSortedString (x : String) : List String → List String
  | [] => [x]
  | y :: ys => if strLtB x y then x :: y :: ys else y :: insertSortedString x ys

/-- CPython `sorted` on a list of strings. -/
def sortStrings (l : List String) : List String :=
  l.foldr insertSortedString []

mutual

/-- Mirrors `Task._id_hash_jsonable`: the object
`{"namespace": ..., "family": ..., "parameters": {name: config.id_hasher(value)
for fields whose config.id_hash_include(value) holds}}`. -/
def idHashJsonable : TaskModel → Json
  | .mk ns fam params =>
    .obj [("namespace", .str ns), ("family", .str fam),
      ("parameters", .obj (includedParams params))]

/-- The `parameters` entries: declaration order, fields whose
`id_hash_include` policy accepts the value, each mapped through its
`id_hasher`. -/
def includedParams : List ParamField → List (String × Json)
  | [] => []
  | .mk name v inc hasher :: rest =>
    if inc then (name, hashValue hasher v) :: includedParams rest
    else includedParams rest

/-- The field's `id_hasher` applied to its value.  `HasherKind.default` is
`IDHasher.__call__`: a `Task` value contributes its `task_id`
(`get_str_hash` of its canonical id-hash JSON — spelled out here so the
recursion is structural); any other value is dumped to its canonical JSON
form (`type_adapter.dump_python(value, mode="json")`, which dumps a set of
`TaskParam`s as their tagged dicts in iteration order).
`HasherKind.taskSet` is `TaskSetHasher.__call__`:
`sorted([child.task_id for child in value])` (the non-set cases of
`.taskSet` are unreachable for well-typed tasks and behave as the default
hasher). -/
def hashValue : HasherKind → ParamValue → Json
  | .default, .task t => .str (get_str_hash (hashSafeJsonDumps (idHashJsonable t)))
  | .default, .int i => .num i
  | .default, .str s => .str s
  | .default, .taskSet ts => .arr (encodeTaskList ts)
  | .taskSet, .taskSet ts => .arr ((sortStrings (taskIds ts)).map .str)
  | .taskSet, .task t => .str (get_str_hash (hashSafeJsonDumps (idHashJsonable t)))
  | .taskSet, .int i => .num i
  | .taskSet, .str s => .str s

/-- The `task_id`s (`get_str_hash` of the canonical id-hash JSON) of a
list of tasks, in order. -/
def taskIds : List TaskModel → List String
  | [] => []
  | t :: ts => get_str_hash (hashSafeJsonDumps (idHashJsonable t)) :: taskIds ts

/-- Mirrors the `_TaskParam` `PlainSerializer`:
`{**x.model_dump(), "__family__": x.get_family(), "__namespace__": x.get_namespace()}`
(all fields, significant or not, then the two tag keys). -/
def encodeTask : TaskModel → Json
  | .mk ns fam params =>
    .obj (modelDumpFields params ++
      [("__family__", .str fam), ("__namespace__", .str ns)])

/-- `model_dump()` of the declared fields, in declaration order; nested
`TaskParam` fields dump through their own tagged serializer. -/
def modelDumpFields : List ParamField → List (String × Json)
  | [] => []
  | .mk name v _ _ :: rest => (name, dumpValue v) :: modelDumpFields rest

/-- The `model_dump()` of one field value. -/
def dumpValue : ParamValue → Json
  | .int i => .num i
  | .str s => .str s
  | .task t => encodeTask t
  | .taskSet ts => .arr (encodeTaskList ts)

def encodeTaskList : List TaskModel → List Json
  | [] => []
  | t :: ts => encodeTask t :: encodeTaskList ts

end

/-- Mirrors `Task._id_hash_json`:
`_hash_safe_json_dumps(self._id_hash_jsonable())`. -/
def idHashJson (t : TaskModel) : String :=
  hashSafeJsonDumps (idHashJsonable t)

/-- Mirrors `Task.task_id`: `get_str_hash(self._id_hash_json())`. -/
def task_id (t : TaskModel) : String :=
  get_str_hash (idHashJson t)

@[simp] theorem hashValue_default_task (t : TaskModel) :
    hashValue .default (.task t) = .str (task_id t) := rfl

@[simp] theorem taskIds_cons (t : TaskModel) (ts : List TaskModel) :
    taskIds (t :: ts) = task_id t :: taskIds ts := rfl

/-! ## Helper lemmas for the identity claims -/

theorem includedParams_append (l₁ l₂ : List ParamField) :
    includedParams (l₁ ++ l₂) = includedParams l₁ ++ includedParams l₂ := by
  induction l₁ with
  | nil => rfl
  | cons f rest ih =>
    cases f with
    | mk name v inc hasher =>
      by_cases h : inc = true
      · simp [includedParams, h, ih]
      · simp [includedParams, h, ih]

theorem taskIds_eq_map (l : List TaskModel) : taskIds l = l.map task_id := by
  induction l with
  | nil => rfl
  | cons t ts ih => simp [ih]

theorem char_toNat_inj {a b : Char} (h : a.toNat = b.toNat) : a = b := by
  have h2 := congrArg Char.ofNat h
  rwa [Char.ofNat_toNat, Char.ofNat_toNat] at h2

theorem charListLt_asymm :
    ∀ as bs : List Char, charListLt as bs = true → charListLt bs as = false := by
  intro as
  induction as with
  | nil =>
    intro bs h
    cases bs with
    | nil => exact absurd h (by simp [charListLt])
    | cons d ds => rfl
  | cons c cs ih =>
    intro bs h
    cases bs with
    | nil => exact absurd h (by simp [charListLt])
    | cons d ds =>
      rcases Nat.lt_trichotomy c.toNat d.toNat with h1 | h1 | h1
      · simp only [charListLt]
        simp [h1, show ¬ d.toNat < c.toNat by omega]
      · simp only [charListLt] at h ⊢
        simp only [show ¬ c.toNat < d.toNat by omega, if_false,
          show ¬ d.toNat < c.toNat by omega] at h ⊢
        exact ih ds h
      · simp only [charListLt] at h
        simp only [show ¬ c.toNat < d.toNat by omega, if_false, h1, if_true] at h
        exact absurd h (by simp)

theorem charListLt_antisymm :
    ∀ as bs : List Char, charListLt as bs = false → charListLt bs as = false →
      as = bs := by
  intro as
  induction as with
  | nil =>
    intro bs h1 _
    cases bs with
    | nil => rfl
    | cons d ds => exact absurd h1 (by simp [charListLt])
  | cons c cs ih =>
    intro bs h1 h2
    cases bs with
    | nil => exact absurd h2 (by simp [charListLt])
    | cons d ds =>
      rcases Nat.lt_trichotomy c.toNat d.toNat with hcd | hcd | hcd
      · simp only [charListLt] at h1
        simp only [hcd, if_true] at h1
        exact absurd h1 (by simp)
      · simp only [charListLt] at h1 h2
        simp only [show ¬ c.toNat < d.toNat by omega,
          show ¬ d.toNat < c.toNat by omega, if_false] at h1 h2
        rw [char_toNat_inj hcd, ih ds h1 h2]
      · simp only [charListLt] at h2
        simp only [hcd, if_true] at h2
        exact absurd h2 (by simp)

theorem charListLt_trans :
    ∀ as bs cs : List Char, charListLt as bs = true → charListLt bs cs = true →
      charListLt as cs = true := by
  intro as
  induction as with
  | nil =>
    intro bs cs h1 h2
    cases cs with
    | nil =>
      cases bs with
      | nil => exact absurd h2 (by simp [charListLt])
      | cons b bs' => exact absurd h2 (by simp [charListLt])
    | cons c cs' => rfl
  | cons a as' ih =>
    intro bs cs h1 h2
    cases bs with
    | nil => exact absurd h1 (by simp [charListLt])
    | cons b bs' =>
      cases cs with
      | nil => exact absurd h2 (by simp [charListLt])
      | cons c cs' =>
        rcases Nat.lt_trichotomy a.toNat b.toNat with hab | hab | hab <;>
          rcases Nat.lt_trichotomy b.toNat c.toNat with hbc | hbc | hbc
        · simp only [charListLt]
          simp [show a.toNat < c.toNat by omega]
        · simp only [charListLt]
          simp [show a.toNat < c.toNat by omega]
        · simp only [charListLt] at h2
          simp only [show ¬ b.toNat < c.toNat by omega, if_false, hbc, if_true] at h2
          exact absurd h2 (by simp)
        · simp only [charListLt]
          simp [show a.toNat < c.toNat by omega]
        · simp only [charListLt] at h1 h2 ⊢
          simp only [show ¬ a.toNat < b.toNat by omega,
            show ¬ b.toNat < a.toNat by omega, if_false] at h1
          simp only [show ¬ b.toNat < c.toNat by omega,
            show ¬ c.toNat < b.toNat by omega, if_false] at h2
          simp only [show ¬ a.toNat < c.toNat by omega,
            show ¬ c.toNat < a.toNat by omega, if_false]
          exact ih bs' cs' h1 h2
        · simp only [charListLt] at h2
          simp only [show ¬ b.toNat < c.toNat by omega, if_false, hbc, if_true] at h2
          exact absurd h2 (by simp)
        · simp only [charListLt] at h1
          simp only [show ¬ a.toNat < b.toNat by omega, if_false, hab, if_true] at h1
          exact absurd h1 (by simp)
        · simp only [charListLt] at h1
          simp only [show ¬ a.toNat < b.toNat by omega, if_false, hab, if_true] at h1
          exact absurd h1 (by simp)
        · simp only [charListLt] at h1
          simp only [show ¬ a.toNat < b.toNat by omega, if_false, hab, if_true] at h1
          exact absurd h1 (by simp)

theorem strLtB_asymm {a b : String} (h : strLtB a b = true) : strLtB b a = false :=
  charListLt_asymm a.data b.data h

theorem strLtB_antisymm {a b : String} (h1 : strLtB a b = false)
    (h2 : strLtB b a = false) : a = b :=
  String.ext (charListLt_antisymm a.data b.data h1 h2)

theorem strLtB_trans {a b c : String} (h1 : strLtB a b = true)
    (h2 : strLtB b c = true) : strLtB a c = true :=
  charListLt_trans a.data b.data c.data h1 h2

/-- Inserting two strings into a sorted list commutes. -/
theorem insertSortedString_comm (x y : String) :
    ∀ l, insertSortedString x (insertSortedString y l) =
      insertSortedString y (insertSortedString x l) := by
  intro l
  induction l with
  | nil =>
    show insertSortedString x [y] = insertSortedString y [x]
    cases hxy : strLtB x y <;> cases hyx : strLtB y x
    · rw [strLtB_antisymm hxy hyx]
    · simp [insertSortedString, hxy, hyx]
    · simp [insertSortedString, hxy, hyx]
    · exact absurd (strLtB_asymm hxy) (by simp [hyx])
  | cons z l ih =>
    by_cases hxy : strLtB x y = true
    · have hyx : strLtB y x = false := strLtB_asymm hxy
      by_cases hyz : strLtB y z = true
      · have hxz : strLtB x z = true := strLtB_trans hxy hyz
        simp only [insertSortedString, hyz, if_pos, hxy, hxz, hyx, Bool.false_eq_true,
          if_false, if_true]
      · by_cases hxz : strLtB x z = true
        · simp only [insertSortedString, (by simpa using hyz : strLtB y z = false),
            Bool.false_eq_true, if_false, hxz, if_true, hyx, hyz]
        · simp only [insertSortedString, (by simpa using hyz : strLtB y z = false),
            (by simpa using hxz : strLtB x z = false), Bool.false_eq_true, if_false, ih]
    · have hxy' : strLtB x y = false := by simpa using hxy
      by_cases hyx : strLtB y x = true
      · by_cases hxz : strLtB x z = true
        · have hyz : strLtB y z = true := strLtB_trans hyx hxz
          simp only [insertSortedString, hxz, hyz, if_true, hxy', hyx,
            Bool.false_eq_true, if_false]
        · by_cases hyz : strLtB y z = true
          · simp only [insertSortedString, (by simpa using hxz : strLtB x z = false),
              Bool.false_eq_true, if_false, hyz, if_true, hxy', hxz]
          · simp only [insertSortedString, (by simpa using hxz : strLtB x z = false),
              (by simpa using hyz : strLtB y z = false), Bool.false_eq_true, if_false, ih]
      · have hyx' : strLtB y x = false := by simpa using hyx
        rw [strLtB_antisymm hxy' hyx']

/-- `sorted` of a list of strings is invariant under permutation. -/
theorem sortStrings_eq_of_perm (l l' : List String) (h : l.Perm l') :
    sortStrings l = sortStrings l' := by
  induction h with
  | nil => rfl
  | cons x _ ih =>
    unfold sortStrings at ih ⊢
    rw [List.foldr_cons, List.foldr_cons, ih]
  | swap x y l =>
    unfold sortStrings
    rw [List.foldr_cons, List.foldr_cons, List.foldr_cons, List.foldr_cons]
    exact insertSortedString_comm y x _
  | trans _ _ ih1 ih2 => exact ih1.trans ih2

theorem natToHexPadded_length (len n : Nat) : (natToHexPadded len n).length = len := by
  induction len generalizing n with
  | zero => rfl
  | succ len ih => simp [natToHexPadded, ih]

/-- A lowercase hexadecimal digit. -/
def isLowerHexDigit (c : Char) : Bool :=
  ('0' ≤ c && c ≤ '9') || ('a' ≤ c && c ≤ 'f')

theorem hexDigitChar_isLowerHex (m : Nat) (h : m < 16) :
    isLowerHexDigit (hexDigitChar m) = true := by
  interval_cases m <;> decide

theorem natToHexPadded_all_hex (len n : Nat) :
    (natToHexPadded len n).all isLowerHexDigit = true := by
  induction len generalizing n with
  | zero => rfl
  | succ len ih =>
    simp only [natToHexPadded, List.all_append, Bool.and_eq_true, ih,
      List.all_cons, List.all_nil, Bool.and_true, true_and]
    exact hexDigitChar_isLowerHex _ (Nat.mod_lt _ (by norm_num))

/-! ## Claim C2: the `task_id` derivation -/

/-- The spec's statement of the parameter map `P`: each field whose
`id_hash_include` policy evaluates true on its current value, mapped to
its `id_hasher` result (the default id_hasher substitutes a nested task's
`task_id` string — see `defaultIdHasher`). -/
def specHashedParams (params : List ParamField) : List (String × Json) :=
  params.filterMap fun f =>
    match f with
    | .mk name v inc hasher =>
      if inc then some (name, hashValue hasher v) else none

/-- The `task_id` algorithm exactly as the spec phrases it: the
lowercase-hex SHA-1 digest of the UTF-8 bytes of the JSON serialization
(separators `","`/`":"`, lexicographically sorted keys at every level) of
`{"namespace": ns, "family": fam, "parameters": P}`. -/
def specTaskId : TaskModel → String
  | .mk ns fam params =>
    sha1Hex (strUtf8 (hashSafeJsonDumps
      (.obj [("namespace", .str ns), ("family", .str fam),
        ("parameters", .obj (specHashedParams params))])))

theorem includedParams_eq_spec (params : List ParamField) :
    includedParams params = specHashedParams params := by
  induction params with
  | nil => rfl
  | cons f rest ih =>
    cases f with
    | mk name v inc hasher =>
      by_cases h : inc = true
      · simp [includedParams, specHashedParams, List.filterMap, h]
        exact ih
      · simp [includedParams, specHashedParams, List.filterMap, h]
        exact ih

/-- Claim C2: for every task, `task_id` is the lowercase-hex SHA-1 digest
of the UTF-8 bytes of the canonical JSON serialization (fixed separators,
keys sorted at every level) of `{"namespace", "family", "parameters"}`,
where the parameters map keeps exactly the fields whose `id_hash_include`
policy accepts their value and maps each through its `id_hasher` (the
default hasher substituting a nested task's `task_id` string).  The digest
is 40 lowercase hexadecimal characters. -/
theorem claim_C2 (t : TaskModel) :
    task_id t = specTaskId t ∧ (task_id t).length = 40 ∧
      (task_id t).data.all isLowerHexDigit = true := by
  refine ⟨?_, ?_, ?_⟩
  · cases t with
    | mk ns fam params =>
      show get_str_hash (idHashJson (.mk ns fam params)) = _
      rw [idHashJson, idHashJsonable, includedParams_eq_spec]
      rfl
  · show (String.mk (natToHexPadded 40 (sha1Nat (strUtf8 (idHashJson t))))).length = 40
    show (natToHexPadded 40 (sha1Nat (strUtf8 (idHashJson t)))).length = 40
    exact natToHexPadded_length 40 _
  · exact natToHexPadded_all_hex 40 _

/-! ## Claim C4: set-order invariance of `task_id` -/

/-- Claim C4: a task parameterized by an unordered collection of sub-tasks
(a `TaskSet` field, hashed by `TaskSetHasher`) has the same `task_id` for
any permutation of the collection, because the member task ids are sorted
before being hashed. -/
theorem claim_C4 (ns fam name : String) (inc : Bool)
    (pre post : List ParamField) (ts ts' : List TaskModel)
    (hperm : ts.Perm ts') :
    task_id (.mk ns fam (pre ++ .mk name (.taskSet ts) inc .taskSet :: post)) =
      task_id (.mk ns fam (pre ++ .mk name (.taskSet ts') inc .taskSet :: post)) := by
  have hids : (taskIds ts).Perm (taskIds ts') := by
    rw [taskIds_eq_map, taskIds_eq_map]
    exact hperm.map task_id
  have hsorted : sortStrings (taskIds ts) = sortStrings (taskIds ts') :=
    sortStrings_eq_of_perm _ _ hids
  show get_str_hash (hashSafeJsonDumps (idHashJsonable _)) =
    get_str_hash (hashSafeJsonDumps (idHashJsonable _))
  rw [idHashJsonable, idHashJsonable, includedParams_append, includedParams_append]
  cases hinc : inc with
  | false => simp [includedParams, hinc]
  | true => simp [includedParams, hinc, hashValue, hsorted]

/-- Two leaf tasks used in concrete identity witnesses. -/
def leafInt (a : Int) : TaskModel :=
  .mk "ns" "Leaf" [.mk "a" (.int a) true .default]

/-- Witness for `claim_C4`: the parent of the set `{leafInt 1, leafInt 2}`
has the same id as the parent of `{leafInt 2, leafInt 1}`. -/
theorem claim_C4_witness :
    task_id (.mk "ns" "Parent"
        [.mk "kids" (.taskSet [leafInt 1, leafInt 2]) true .taskSet]) =
      task_id (.mk "ns" "Parent"
        [.mk "kids" (.taskSet [leafInt 2, leafInt 1]) true .taskSet]) :=
  claim_C4 "ns" "Parent" "kids" true [] [] [leafInt 1, leafInt 2]
    [leafInt 2, leafInt 1] (List.Perm.swap (leafInt 2) (leafInt 1) [])

/-! ## Decimal rendering is injective (needed for hash-input sensitivity) -/

/-- The value of a digit list, least significant digit first. -/
def valDigitsRev (l : List Char) : Nat :=
  l.foldr (fun c acc => (c.toNat - 48) + 10 * acc) 0

theorem digitChar_toNat (m : Nat) (h : m < 10) : (digitChar m).toNat = 48 + m := by
  interval_cases m <;> decide

theorem natDecimalAux_val (n : Nat) : valDigitsRev (natDecimalAux n) = n := by
  induction n using Nat.strong_induction_on with
  | _ n ih =>
    rw [natDecimalAux]
    by_cases h : n = 0
    · simp [h, valDigitsRev]
    · rw [dif_neg h]
      show (digitChar (n % 10)).toNat - 48 + 10 * valDigitsRev (natDecimalAux (n / 10)) = n
      rw [digitChar_toNat _ (Nat.mod_lt _ (by norm_num)),
        ih (n / 10) (Nat.div_lt_self (Nat.pos_of_ne_zero h) (by norm_num))]
      omega

theorem natDecimalAux_digits (n : Nat) :
    ∀ c ∈ natDecimalAux n, 48 ≤ c.toNat ∧ c.toNat ≤ 57 := by
  induction n using Nat.strong_induction_on with
  | _ n ih =>
    rw [natDecimalAux]
    by_cases h : n = 0
    · simp [h]
    · rw [dif_neg h]
      intro c hc
      rcases List.mem_cons.mp hc with h2 | h2
      · have := digitChar_toNat (n % 10) (Nat.mod_lt _ (by norm_num))
        subst h2
        omega
      · exact ih (n / 10) (Nat.div_lt_self (Nat.pos_of_ne_zero h) (by norm_num)) c h2

theorem natDecimal_digits (n : Nat) :
    ∀ c ∈ natDecimal n, 48 ≤ c.toNat ∧ c.toNat ≤ 57 := by
  intro c hc
  rw [natDecimal] at hc
  by_cases h : n = 0
  · rw [if_pos h] at hc
    rcases List.mem_singleton.mp hc with rfl
    decide
  · rw [if_neg h] at hc
    exact natDecimalAux_digits n c (List.mem_reverse.mp hc)

theorem natDecimalAux_eq_zero_of_singleton_zero (m : Nat)
    (h : natDecimalAux m = ['0']) : m = 0 := by
  have hv := natDecimalAux_val m
  rw [h] at hv
  simpa [valDigitsRev] using hv.symm

theorem natDecimal_inj (n m : Nat) (h : natDecimal n = natDecimal m) : n = m := by
  rw [natDecimal, natDecimal] at h
  by_cases hn : n = 0 <;> by_cases hm : m = 0
  · omega
  · rw [if_pos hn, if_neg hm] at h
    have : natDecimalAux m = ['0'] := by simpa using (congrArg List.reverse h).symm
    exact absurd (natDecimalAux_eq_zero_of_singleton_zero m this) hm
  · rw [if_neg hn, if_pos hm] at h
    have : natDecimalAux n = ['0'] := by simpa using congrArg List.reverse h
    exact absurd (natDecimalAux_eq_zero_of_singleton_zero n this) hn
  · rw [if_neg hn, if_neg hm] at h
    have h2 := List.reverse_injective h
    calc n = valDigitsRev (natDecimalAux n) := (natDecimalAux_val n).symm
    _ = valDigitsRev (natDecimalAux m) := by rw [h2]
    _ = m := natDecimalAux_val m

theorem intToDecimalString_inj (i j : Int)
    (h : intToDecimalString i = intToDecimalString j) : i = j := by
  have hdata := congrArg String.data h
  rw [intToDecimalString, intToDecimalString] at hdata
  by_cases hi : i < 0 <;> by_cases hj : j < 0
  · rw [if_pos hi, if_pos hj] at hdata
    simp only [String.data] at hdata
    have : natDecimal i.natAbs = natDecimal j.natAbs := List.tail_eq_of_cons_eq hdata
    have := natDecimal_inj _ _ this
    omega
  · exfalso
    rw [if_pos hi, if_neg hj] at hdata
    simp only [String.data] at hdata
    have hmem : '-' ∈ natDecimal j.natAbs := by
      rw [← hdata]; exact List.mem_cons_self _ _
    have := natDecimal_digits j.natAbs '-' hmem
    revert this; decide
  · exfalso
    rw [if_neg hi, if_pos hj] at hdata
    simp only [String.data] at hdata
    have hmem : '-' ∈ natDecimal i.natAbs := by
      rw [hdata]; exact List.mem_cons_self _ _
    have := natDecimal_digits i.natAbs '-' hmem
    revert this; decide
  · rw [if_neg hi, if_neg hj] at hdata
    simp only [String.data] at hdata
    have := natDecimal_inj _ _ hdata
    omega

/-! ## Claim C8: parameter significance and `task_id` sensitivity -/

/-- A task with a single significant parameter `x`. -/
def sigHolder (v : ParamValue) : TaskModel :=
  .mk "ns" "Holder" [.mk "x" v true .default]

/-- A task with a significant int parameter `a` and an insignificant
(`IDHashExclude`-style, `id_hash_include` false) string parameter `note`. -/
def leafG (a : Int) (note : String) : TaskModel :=
  .mk "ns" "Leaf2"
    [.mk "a" (.int a) true .default, .mk "note" (.str note) false .default]

/-- Claim C8, counterexample.  The claim's second half asserts that
changing the value of any significant parameter changes the `task_id`.
False: the default `IDHasher` substitutes a `Task`-valued parameter by its
`task_id` *string*, so the two distinct values `.task (leafInt 0)` and
`.str (task_id (leafInt 0))` of the significant parameter `x` canonicalize
identically and give the parent the same `task_id`. -/
theorem claim_C8_counterexample :
    ¬ ∀ (v v' : ParamValue), v ≠ v' →
        task_id (sigHolder v) ≠ task_id (sigHolder v') := by
  intro h
  exact h (.str (task_id (leafInt 0))) (.task (leafInt 0))
    (fun hh => ParamValue.noConfusion hh) rfl

/-- The canonical id-hash JSON string of `leafG a note`: a fixed prefix,
the decimal rendering of `a`, and two closing braces; the insignificant
`note` does not appear. -/
theorem leafG_idHashJson (a : Int) (note : String) :
    (idHashJson (leafG a note)).data =
      ['\x7b', '\x22', 'f', 'a', 'm', 'i', 'l', 'y', '\x22', ':', '\x22', 'L', 'e', 'a', 'f', '2', '\x22', ',', '\x22', 'n', 'a', 'm', 'e', 's', 'p', 'a', 'c', 'e', '\x22', ':', '\x22', 'n', 's', '\x22', ',', '\x22', 'p', 'a', 'r', 'a', 'm', 'e', 't', 'e', 'r', 's', '\x22', ':', '\x7b', '\x22', 'a', '\x22', ':'] ++
        (((intToDecimalString a).data ++ ['\x7d']) ++ ['\x7d']) := rfl

/-- Claim C8, amended: (a) two tasks that differ only in the value (and
even the hasher) of an insignificant parameter (`id_hash_include` false)
have equal `task_id`; (b) but changing a significant parameter does not
always change the `task_id`: a `Task`-valued parameter hashes exactly as
the plain string parameter holding its `task_id`; (c) for ordinary JSON
values the sensitivity does hold at the canonical pre-hash serialization:
two `leafG` tasks with different ints have different `_id_hash_json`
strings (so their `task_id`s differ unless SHA-1 collides on them). -/
theorem claim_C8 :
    (∀ (ns fam name : String) (pre post : List ParamField) (v v' : ParamValue)
        (h h' : HasherKind),
      task_id (.mk ns fam (pre ++ .mk name v false h :: post)) =
        task_id (.mk ns fam (pre ++ .mk name v' false h' :: post))) ∧
    (∀ (ns fam name : String) (pre post : List ParamField) (u : TaskModel),
      task_id (.mk ns fam (pre ++ .mk name (.task u) true .default :: post)) =
        task_id (.mk ns fam (pre ++ .mk name (.str (task_id u)) true .default :: post))) ∧
    (∀ (a b : Int) (note note' : String), a ≠ b →
      idHashJson (leafG a note) ≠ idHashJson (leafG b note')) := by
  refine ⟨?_, ?_, ?_⟩
  · intro ns fam name pre post v v' h h'
    simp only [task_id, idHashJson, idHashJsonable, includedParams_append]
    simp [includedParams]
  · intro ns fam name pre post u
    simp only [task_id, idHashJson, idHashJsonable, includedParams_append]
    simp [includedParams, hashValue]
  · intro a b note note' hab heq
    have hdata := congrArg String.data heq
    rw [leafG_idHashJson, leafG_idHashJson] at hdata
    have h1 := List.append_cancel_left hdata
    have h2 := List.append_cancel_right (List.append_cancel_right h1)
    exact hab (intToDecimalString_inj a b (String.ext h2))

/-- Witness for `claim_C8` at concrete tasks. -/
theorem claim_C8_witness :
    task_id (.mk "ns" "Leaf2"
        ([.mk "a" (.int 1) true .default] ++ .mk "note" (.str "x") false .default :: [])) =
      task_id (.mk "ns" "Leaf2"
        ([.mk "a" (.int 1) true .default] ++ .mk "note" (.str "y") false .default :: [])) ∧
      idHashJson (leafG 1 "x") ≠ idHashJson (leafG 2 "y") :=
  ⟨claim_C8.1 "ns" "Leaf2" "note" [.mk "a" (.int 1) true .default] []
      (.str "x") (.str "y") .default .default,
    claim_C8.2.2 1 2 "x" "y" (by decide)⟩

/-! ## The registry (`_Register` in task.py) -/

/-- Python exceptions surfaced by the embedded operations. -/
inductive PyError where
  | keyError : String → PyError
  | valueError : String → PyError
  | validationError : String → PyError
  deriving DecidableEq

/-- Mirrors `get_namespace_family` in `task.py`: an empty string is "no
namespace", otherwise the flattened `f"{namespace}.{family}"` key. -/
def get_namespace_family (namespace_ family : String) : String :=
  if ¬ namespace_.isEmpty then namespace_ ++ "." ++ family else family

/-- Python `dict` lookup over an insertion-ordered association list. -/
def lookupAssoc {α : Type} : List (String × α) → String → Option α
  | [], _ => none
  | (k, v) :: rest, key => if k = key then some v else lookupAssoc rest key

/-- Mirrors `_Register.get`: `self._namespace_family_to_class[namespace_family]`
— a plain dict subscript, raising `KeyError` on an absent flattened key. -/
def registerGet {α : Type} (reg : List (String × α)) (namespace_ family : String) :
    Except PyError α :=
  let namespace_family := get_namespace_family namespace_ family
  match lookupAssoc reg namespace_family with
  | some cls => .ok cls
  | none => .error (.keyError namespace_family)

/-- Mirrors `_Register.add` (with family/namespace already resolved): a
class registered twice, or a second class under an existing
`namespace_family`, is a fatal `ValueError`; otherwise the pair is
appended. -/
def registerAdd {α : Type} [DecidableEq α] (reg : List (String × α))
    (namespace_ family : String) (cls : α) : Except PyError (List (String × α)) :=
  if (reg.map (·.2)).contains cls then
    .error (.valueError "Task class already registered")
  else
    let namespace_family := get_namespace_family namespace_ family
    match lookupAssoc reg namespace_family with
    | some _ => .error (.valueError "A task is already registered for the namespace_family")
    | none => .ok (reg ++ [(namespace_family, cls)])

/-- Claim C9, counterexample.  The claim says lookup fails with the
not-found error for *every* (namespace, family) pair with no registered
task type.  False: registration flattens the pair into the single string
`namespace + "." + family`, so after registering only `("a", "b")`, the
never-registered pair `("", "a.b")` flattens to the same key `"a.b"` and
lookup returns the type registered for `("a", "b")` instead of failing. -/
theorem claim_C9_counterexample :
    registerAdd ([] : List (String × String)) "a" "b" "TaskB" =
        .ok [("a.b", "TaskB")] ∧
      (("", "a.b") : String × String) ≠ ("a", "b") ∧
      registerGet [("a.b", "TaskB")] "" "a.b" = .ok "TaskB" :=
  ⟨rfl, by decide, rfl⟩

/-- Claim C9, amended: registry lookup is keyed solely by the flattened
`namespace_family` string.  It fails with `KeyError` (the distinguishable
not-found failure) exactly when that flattened key is absent, and returns
the type stored under the key otherwise; distinct pairs that flatten to
the same key — `("", ns ++ "." ++ fam)` versus `(ns, fam)` — are not
distinguished. -/
theorem claim_C9 :
    (∀ (α : Type) (reg : List (String × α)) (ns fam : String),
      lookupAssoc reg (get_namespace_family ns fam) = none →
        registerGet reg ns fam = .error (.keyError (get_namespace_family ns fam))) ∧
    (∀ (α : Type) (reg : List (String × α)) (ns fam : String) (cls : α),
      lookupAssoc reg (get_namespace_family ns fam) = some cls →
        registerGet reg ns fam = .ok cls) ∧
    (∀ ns fam : String, ¬ ns.isEmpty →
      get_namespace_family "" (ns ++ "." ++ fam) = get_namespace_family ns fam) := by
  refine ⟨?_, ?_, ?_⟩
  · intro α reg ns fam h
    rw [registerGet]
    rw [h]
  · intro α reg ns fam cls h
    rw [registerGet]
    rw [h]
  · intro ns fam h
    show ns ++ "." ++ fam = get_namespace_family ns fam
    rw [get_namespace_family, if_pos h]

/-- Witness for `claim_C9` at a concrete one-entry registry. -/
theorem claim_C9_witness :
    registerGet ([("other", "T")] : List (String × String)) "a" "b" =
        .error (.keyError (get_namespace_family "a" "b")) ∧
      registerGet ([("a.b", "TaskB")] : List (String × String)) "a" "b" = .ok "TaskB" ∧
      get_namespace_family "" ("a" ++ "." ++ "b") = get_namespace_family "a" "b" :=
  ⟨claim_C9.1 String [("other", "T")] "a" "b" (by decide),
    claim_C9.2.1 String [("a.b", "TaskB")] "a" "b" "TaskB" (by decide),
    claim_C9.2.2 "a" "b" (by decide)⟩

/-! ## Serializer dispatch (target/serialize.py)

Type annotations are modelled by the shapes the dispatcher inspects:
built-in `int`/`str`, the pandas `DataFrame` class, a class implementing
the `SelfSerializing` protocol, an opaque class (for which pydantic's
`TypeAdapter` raises `PydanticSchemaGenerationError`), and
`typing.Annotated[inner, serializer_instance]`. -/

inductive TypeAnn where
  | int : TypeAnn
  | str : TypeAnn
  | dataFrame : TypeAnn
  | selfSerializing : TypeAnn
  | opaqueClass : TypeAnn
  | annotated : String → TypeAnn → TypeAnn
  deriving DecidableEq

/-- The serializer objects the candidate factories construct. -/
inductive SerializerModel where
  | explicit : String → SerializerModel
  | selfSer : TypeAnn → SerializerModel
  | pandasCSV : SerializerModel
  | plainText : SerializerModel
  | json : TypeAnn → SerializerModel
  | pickle : SerializerModel
  deriving DecidableEq

/-- Mirrors the source's annotation-stripping helper: `Annotated[inner, ...]` strips to `inner`,
anything else is returned unchanged. -/
def stripAnn : TypeAnn → TypeAnn
  | .annotated _ inner => inner
  | a => a

/-- A candidate factory signals non-acceptance (`ValueError` in the code)
as `none`. Mirrors `get_explicitly_annotated_serializer`: only an
`Annotated[...]` carrying a `Serializer` instance is accepted. -/
def get_explicitly_annotated_serializer : TypeAnn → Option SerializerModel
  | .annotated ser _ => some (.explicit ser)
  | _ => none

/-- Mirrors `SelfSerializer.type_checked_init`: accepts a class complying
with the `SelfSerializing` protocol (after stripping the annotation). -/
def selfSerializer_init (ann : TypeAnn) : Option SerializerModel :=
  match stripAnn ann with
  | .selfSerializing => some (.selfSer (stripAnn ann))
  | _ => none

/-- Mirrors `PandasDataFrameCSVSerializer.type_checked_init`: the stripped
annotation must be `DataFrame`. -/
def pandasDataFrameCSV_init (ann : TypeAnn) : Option SerializerModel :=
  if stripAnn ann = .dataFrame then some .pandasCSV else none

/-- Mirrors `PlainTextSerializer.type_checked_init`: the stripped
annotation must be `str`. -/
def plainText_init (ann : TypeAnn) : Option SerializerModel :=
  if stripAnn ann = .str then some .plainText else none

/-- Whether pydantic can generate a JSON schema for the annotation:
built-in JSON-able types succeed, arbitrary classes (`DataFrame`, a
`SelfSerializing` class, an opaque class) raise
`PydanticSchemaGenerationError`. -/
def jsonSchemaRepresentable : TypeAnn → Bool
  | .int => true
  | .str => true
  | .dataFrame => false
  | .selfSerializing => false
  | .opaqueClass => false
  | .annotated _ inner => jsonSchemaRepresentable inner

/-- Mirrors `JSONSerializer.type_checked_init`: `TypeAdapter(annotation)`
must succeed. -/
def jsonSerializer_init (ann : TypeAnn) : Option SerializerModel :=
  if jsonSchemaRepresentable ann then some (.json ann) else none

/-- Mirrors `PickleSerializer.type_checked_init`: always accepts. -/
def pickleSerializer_init (_ : TypeAnn) : Option SerializerModel :=
  some .pickle

/-- Mirrors `_DEFAULT_SERIALIZER_CANDIDATES`, in the source's exact order. -/
def defaultSerializerCandidates : List (TypeAnn → Option SerializerModel) :=
  [get_explicitly_annotated_serializer,
    selfSerializer_init,
    pandasDataFrameCSV_init,
    plainText_init,
    jsonSerializer_init,
    pickleSerializer_init]

/-- The `for candidate in self.candidates: try ... except ValueError`
loop: first acceptance wins. -/
def firstAccepting : List (TypeAnn → Option SerializerModel) → TypeAnn →
    Option SerializerModel
  | [], _ => none
  | c :: cs, ann =>
    match c ann with
    | some s => some s
    | none => firstAccepting cs ann

/-- Mirrors `SerializerFactory.__call__` over the default candidates. -/
def serializerFactory (ann : TypeAnn) : Except PyError SerializerModel :=
  match firstAccepting defaultSerializerCandidates ann with
  | some s => .ok s
  | none => .error (.valueError "No serializer found")

/-- `get_default_extension` of each serializer (`SelfSerializer` defaults
to `None`; an explicitly annotated serializer instance need not define
one, modelled as `none`). -/
def get_default_extension : SerializerModel → Option String
  | .explicit _ => none
  | .selfSer _ => none
  | .pandasCSV => some "csv"
  | .plainText => some "txt"
  | .json _ => some "json"
  | .pickle => some "pkl"

/-- The dispatch chain exactly as the spec words it: explicit-annotation,
then self-describing, then dataframe, then plain-text, then JSON, then the
binary fallback; the first candidate that accepts wins. -/
def specSerializerChoice (ann : TypeAnn) : Option SerializerModel :=
  match get_explicitly_annotated_serializer ann with
  | some s => some s
  | none =>
    match selfSerializer_init ann with
    | some s => some s
    | none =>
      match pandasDataFrameCSV_init ann with
      | some s => some s
      | none =>
        match plainText_init ann with
        | some s => some s
        | none =>
          match jsonSerializer_init ann with
          | some s => some s
          | none => pickleSerializer_init ann

/-- Claim C6: serializer dispatch walks the candidate list in the exact
claimed precedence (the factory provably equals the spec's chain, first
acceptance winning — determinism is immediate since it is a function of
the annotation); `int` gets the JSON serializer with default extension
`"json"`, `str` the plain-text serializer with `"txt"`, an unrecognized
opaque class the pickle fallback with `"pkl"`; moreover a `DataFrame` gets
the CSV serializer, a self-describing class the `SelfSerializer`, and an
explicit annotation always wins. -/
theorem claim_C6 :
    (∀ ann, serializerFactory ann =
      match specSerializerChoice ann with
      | some s => .ok s
      | none => .error (.valueError "No serializer found")) ∧
    serializerFactory .int = .ok (.json .int) ∧
    get_default_extension (.json .int) = some "json" ∧
    serializerFactory .str = .ok .plainText ∧
    get_default_extension .plainText = some "txt" ∧
    serializerFactory .opaqueClass = .ok .pickle ∧
    get_default_extension .pickle = some "pkl" ∧
    serializerFactory .dataFrame = .ok .pandasCSV ∧
    get_default_extension .pandasCSV = some "csv" ∧
    serializerFactory .selfSerializing = .ok (.selfSer .selfSerializing) ∧
    (∀ (ser : String) (inner : TypeAnn),
      serializerFactory (.annotated ser inner) = .ok (.explicit ser)) := by
  refine ⟨fun ann => rfl, rfl, rfl, rfl, rfl, rfl, rfl, rfl, rfl, rfl, fun ser inner => rfl⟩

/-! ## Decoding task references (task_parameter.py `_task_param_validate`)

Decoding resolves the concrete task type through the registry and
re-validates the remaining fields against that type's field schema.  A
registered task type is modelled by its field schema (pydantic model
fields: declared name, declared type, and the parameter config carried by
the field's metadata). -/

inductive FieldType where
  | int : FieldType
  | str : FieldType
  | task : FieldType
  | taskSet : FieldType
  deriving DecidableEq

structure FieldSchema where
  name : String
  type_ : FieldType
  idHashInclude : Bool
  hasher : HasherKind
  deriving DecidableEq

structure TaskSchema where
  namespace_ : String
  family : String
  fields : List FieldSchema
  deriving DecidableEq

/-- The declared field names of a task instance, in declaration order. -/
def paramNames : List ParamField → List String
  | [] => []
  | .mk name _ _ _ :: rest => name :: paramNames rest

/-- No duplicate names (Python class fields are necessarily distinct). -/
def namesNodupB : List String → Bool
  | [] => true
  | n :: rest => !(rest.contains n) && namesNodupB rest

mutual

/-- The task instance is an instance of its registered type: the registry
maps its flattened namespace_family key to a schema whose namespace,
family, field names, parameter configs and field types match the instance
(field names are distinct and distinct from the two tag keys, as they are
for any Python class). -/
def wellTypedTask (reg : List (String × TaskSchema)) : TaskModel → Bool
  | .mk ns fam params =>
    match lookupAssoc reg (get_namespace_family ns fam) with
    | none => false
    | some schema =>
      schema.namespace_ == ns && schema.family == fam &&
        namesNodupB (paramNames params) && fieldsWellTyped reg schema.fields params

def fieldsWellTyped (reg : List (String × TaskSchema)) :
    List FieldSchema → List ParamField → Bool
  | [], [] => true
  | fs :: srest, .mk name v inc hasher :: prest =>
    fs.name == name && !(name == "__family__") && !(name == "__namespace__") &&
      fs.idHashInclude == inc && fs.hasher == hasher &&
      valueWellTyped reg fs.type_ v && fieldsWellTyped reg srest prest
  | _, _ => false

def valueWellTyped (reg : List (String × TaskSchema)) : FieldType → ParamValue → Bool
  | .int, .int _ => true
  | .str, .str _ => true
  | .task, .task t => wellTypedTask reg t
  | .taskSet, .taskSet ts => tasksWellTyped reg ts
  | _, _ => false

def tasksWellTyped (reg : List (String × TaskSchema)) : List TaskModel → Bool
  | [] => true
  | t :: ts => wellTypedTask reg t && tasksWellTyped reg ts

end

mutual

/-- Nesting depth of a task instance (bounds the decode fuel). -/
def taskHeight : TaskModel → Nat
  | .mk _ _ params => paramsHeight params + 1

def paramsHeight : List ParamField → Nat
  | [] => 0
  | .mk _ v _ _ :: rest => max (valueHeight v) (paramsHeight rest)

def valueHeight : ParamValue → Nat
  | .int _ => 0
  | .str _ => 0
  | .task t => taskHeight t
  | .taskSet ts => tasksHeight ts

def tasksHeight : List TaskModel → Nat
  | [] => 0
  | t :: ts => max (taskHeight t) (tasksHeight ts)

end

mutual

/-- Mirrors `_task_param_validate` on a dict: both tag keys are required
(the code's error message for a missing family names the namespace key —
kept faithfully); the type is resolved through `_REGISTER.get` (whose
`KeyError` propagates); the remaining fields are validated against the
resolved type's schema (extra keys such as the forwarded `__namespace__`
are ignored, pydantic's default).  The fuel argument bounds the nesting
depth of the decoded value; any non-dict input is rejected like any
non-`Task`, non-dict value in the source. -/
def decodeTask (reg : List (String × TaskSchema)) :
    Nat → Json → Except PyError TaskModel
  | 0, _ => .error (.validationError "nesting too deep")
  | fuel + 1, .obj kvs =>
    match lookupAssoc kvs "__namespace__" with
    | none => .error (.valueError "Task parameter dict must have a '__namespace__' key.")
    | some nsJson =>
      match lookupAssoc kvs "__family__" with
      | none =>
        .error (.valueError "Task parameter dict must have a '__namespace__' key.")
      | some famJson =>
        match nsJson, famJson with
        | .str ns, .str fam =>
          match registerGet reg ns fam with
          | .error e => .error e
          | .ok schema =>
            match decodeFields reg fuel schema.fields kvs with
            | .error e => .error e
            | .ok params => .ok (.mk schema.namespace_ schema.family params)
        | _, _ => .error (.validationError "tag keys must be strings")
  | _ + 1, _ => .error (.valueError "Invalid task parameter type")
termination_by fuel _ => (fuel, 0, 0)

/-- Validate the declared fields against the dict (pydantic `__init__`):
each declared field is looked up by name and validated at its declared
type; unknown keys are ignored; a missing declared field is a validation
error. -/
def decodeFields (reg : List (String × TaskSchema)) :
    Nat → List FieldSchema → List (String × Json) → Except PyError (List ParamField)
  | _, [], _ => .ok []
  | fuel, fs :: rest, kvs =>
    match lookupAssoc kvs fs.name with
    | none => .error (.validationError "missing field")
    | some v =>
      match decodeValue reg fuel fs.type_ v with
      | .error e => .error e
      | .ok pv =>
        match decodeFields reg fuel rest kvs with
        | .error e => .error e
        | .ok tail => .ok (.mk fs.name pv fs.idHashInclude fs.hasher :: tail)
termination_by fuel fields _ => (fuel, 3, fields.length)

/-- Validate one field value at its declared type; nested `TaskParam`
fields decode recursively, `TaskSet` fields element-wise. -/
def decodeValue (reg : List (String × TaskSchema)) :
    Nat → FieldType → Json → Except PyError ParamValue
  | _, .int, .num i => .ok (.int i)
  | _, .str, .str s => .ok (.str s)
  | fuel, .task, v =>
    match decodeTask reg fuel v with
    | .error e => .error e
    | .ok t => .ok (.task t)
  | fuel, .taskSet, .arr es =>
    match decodeTasks reg fuel es with
    | .error e => .error e
    | .ok ts => .ok (.taskSet ts)
  | _, _, _ => .error (.validationError "field value has wrong type")
termination_by fuel _ _ => (fuel, 2, 0)

def decodeTasks (reg : List (String × TaskSchema)) :
    Nat → List Json → Except PyError (List TaskModel)
  | _, [] => .ok []
  | fuel, e :: es =>
    match decodeTask reg fuel e with
    | .error err => .error err
    | .ok t =>
      match decodeTasks reg fuel es with
      | .error err => .error err
      | .ok ts => .ok (t :: ts)
termination_by fuel es => (fuel, 1, es.length)

end


/-! ## Claim C5: round-trip `decode(encode(task)) == task` -/

theorem lookupAssoc_append_right {α : Type} (l₁ l₂ : List (String × α)) (k : String)
    (h : ∀ p ∈ l₁, p.1 ≠ k) : lookupAssoc (l₁ ++ l₂) k = lookupAssoc l₂ k := by
  induction l₁ with
  | nil => rfl
  | cons p rest ih =>
    cases p with
    | mk pk pv =>
      rw [List.cons_append, lookupAssoc, if_neg (h (pk, pv) (List.mem_cons_self _ _))]
      exact ih fun q hq => h q (List.mem_cons_of_mem _ hq)

theorem lookupAssoc_append_left {α : Type} {l₁ : List (String × α)}
    (l₂ : List (String × α)) {k : String} {v : α}
    (h : lookupAssoc l₁ k = some v) : lookupAssoc (l₁ ++ l₂) k = some v := by
  induction l₁ with
  | nil => exact absurd h (by simp [lookupAssoc])
  | cons p rest ih =>
    cases p with
    | mk pk pv =>
      rw [lookupAssoc] at h
      rw [List.cons_append, lookupAssoc]
      by_cases hk : pk = k
      · rw [if_pos hk] at h
        rw [if_pos hk, h]
      · rw [if_neg hk] at h
        rw [if_neg hk]
        exact ih h

theorem mem_paramNames {params : List ParamField} {name : String} {v : ParamValue}
    {inc : Bool} {hasher : HasherKind} (h : ParamField.mk name v inc hasher ∈ params) :
    name ∈ paramNames params := by
  induction params with
  | nil => exact absurd h (by simp)
  | cons p rest ih =>
    cases p with
    | mk n' v' i' h' =>
      rcases List.mem_cons.mp h with h2 | h2
      · injection h2 with e1 _ _ _
        exact e1 ▸ List.mem_cons_self _ _
      · exact List.mem_cons_of_mem _ (ih h2)

theorem modelDumpFields_keys (params : List ParamField) :
    ∀ p ∈ modelDumpFields params, p.1 ∈ paramNames params := by
  induction params with
  | nil => intro p hp; exact absurd hp (by simp [modelDumpFields])
  | cons f rest ih =>
    cases f with
    | mk n' v' i' h' =>
      intro p hp
      rw [modelDumpFields] at hp
      rcases List.mem_cons.mp hp with h2 | h2
      · rw [h2, paramNames]
        exact List.mem_cons_self _ _
      · rw [paramNames]
        exact List.mem_cons_of_mem _ (ih p h2)

theorem fieldsWellTyped_names_ok (reg : List (String × TaskSchema)) :
    ∀ (fields : List FieldSchema) (params : List ParamField),
      fieldsWellTyped reg fields params = true →
      ∀ n ∈ paramNames params, n ≠ "__family__" ∧ n ≠ "__namespace__" := by
  intro fields
  induction fields with
  | nil =>
    intro params h n hn
    cases params with
    | nil => exact absurd hn (by simp [paramNames])
    | cons p ps => exact absurd h (by simp [fieldsWellTyped])
  | cons fs srest ih =>
    intro params h n hn
    cases params with
    | nil => exact absurd h (by simp [fieldsWellTyped])
    | cons p prest =>
      cases p with
      | mk name v inc hasher =>
        rw [fieldsWellTyped] at h
        simp only [Bool.and_eq_true, beq_iff_eq, Bool.not_eq_true',
          beq_eq_false_iff_ne] at h
        obtain ⟨⟨⟨⟨⟨⟨_, hfam⟩, hns⟩, _⟩, _⟩, _⟩, hrest⟩ := h
        rw [paramNames] at hn
        rcases List.mem_cons.mp hn with h2 | h2
        · exact ⟨h2 ▸ hfam, h2 ▸ hns⟩
        · exact ih prest hrest n h2

theorem lookupAssoc_modelDumpFields {params : List ParamField}
    (hnodup : namesNodupB (paramNames params) = true) {name : String}
    {v : ParamValue} {inc : Bool} {hasher : HasherKind}
    (hmem : ParamField.mk name v inc hasher ∈ params) :
    lookupAssoc (modelDumpFields params) name = some (dumpValue v) := by
  induction params with
  | nil => exact absurd hmem (by simp)
  | cons p rest ih =>
    cases p with
    | mk n' v' i' h' =>
      rw [paramNames, namesNodupB, Bool.and_eq_true, Bool.not_eq_true'] at hnodup
      have hni : n' ∉ paramNames rest := by simpa using hnodup.1
      rw [modelDumpFields, lookupAssoc]
      rcases List.mem_cons.mp hmem with h2 | h2
      · injection h2 with e1 e2 _ _
        rw [if_pos e1.symm, e2]
      · rw [if_neg fun he : n' = name => hni (by rw [he]; exact mem_paramNames h2)]
        exact ih hnodup.2 h2

theorem valueHeight_le_paramsHeight {params : List ParamField} {name : String}
    {v : ParamValue} {inc : Bool} {hasher : HasherKind}
    (h : ParamField.mk name v inc hasher ∈ params) :
    valueHeight v ≤ paramsHeight params := by
  induction params with
  | nil => exact absurd h (by simp)
  | cons p rest ih =>
    cases p with
    | mk n' v' i' h' =>
      rw [paramsHeight]
      rcases List.mem_cons.mp h with h2 | h2
      · injection h2 with _ e2 _ _
        exact e2 ▸ le_max_left _ _
      · exact le_trans (ih h2) (le_max_right _ _)

theorem taskHeight_le_tasksHeight {ts : List TaskModel} {t : TaskModel}
    (h : t ∈ ts) : taskHeight t ≤ tasksHeight ts := by
  induction ts with
  | nil => exact absurd h (by simp)
  | cons u us ih =>
    rw [tasksHeight]
    rcases List.mem_cons.mp h with h2 | h2
    · exact h2 ▸ le_max_left _ _
    · exact le_trans (ih h2) (le_max_right _ _)

/-- Claim C5: decoding the encoded tagged-dict representation of any
well-typed task (one that is an instance of its registered type, with
nesting depth within the decode budget) yields the task back, including
tasks nested as parameters and inside ordered/unordered collections.  All
fields, significant and insignificant alike, are present in the encoding
and reconstructed. -/
theorem claim_C5 (reg : List (String × TaskSchema)) :
    ∀ (fuel : Nat) (t : TaskModel), wellTypedTask reg t = true →
      taskHeight t ≤ fuel → decodeTask reg fuel (encodeTask t) = .ok t := by
  intro fuel
  induction fuel with
  | zero =>
    intro t hwt hh
    cases t with
    | mk ns fam params =>
      rw [taskHeight] at hh
      omega
  | succ fuel IH =>
    have hlist : ∀ l, tasksWellTyped reg l = true → tasksHeight l ≤ fuel →
        decodeTasks reg fuel (encodeTaskList l) = .ok l := by
      intro l
      induction l with
      | nil => intro _ _; simp [encodeTaskList, decodeTasks]
      | cons t ts ih =>
        intro h hh
        rw [tasksWellTyped, Bool.and_eq_true] at h
        rw [tasksHeight, max_le_iff] at hh
        rw [encodeTaskList, decodeTasks, IH t h.1 hh.1, ih h.2 hh.2]
    have hval : ∀ (v : ParamValue) (ty : FieldType),
        valueWellTyped reg ty v = true → valueHeight v ≤ fuel →
        decodeValue reg fuel ty (dumpValue v) = .ok v := by
      intro v ty h hh
      cases v with
      | int i =>
        cases ty with
        | int => simp [dumpValue, decodeValue]
        | str => simp [valueWellTyped] at h
        | task => simp [valueWellTyped] at h
        | taskSet => simp [valueWellTyped] at h
      | str s =>
        cases ty with
        | str => simp [dumpValue, decodeValue]
        | int => simp [valueWellTyped] at h
        | task => simp [valueWellTyped] at h
        | taskSet => simp [valueWellTyped] at h
      | task t =>
        cases ty with
        | task =>
          rw [valueHeight] at hh
          rw [valueWellTyped] at h
          simp [dumpValue, decodeValue, IH t h hh]
        | int => simp [valueWellTyped] at h
        | str => simp [valueWellTyped] at h
        | taskSet => simp [valueWellTyped] at h
      | taskSet ts =>
        cases ty with
        | taskSet =>
          rw [valueHeight] at hh
          rw [valueWellTyped] at h
          simp [dumpValue, decodeValue, hlist ts h hh]
        | int => simp [valueWellTyped] at h
        | str => simp [valueWellTyped] at h
        | task => simp [valueWellTyped] at h
    have hfields : ∀ (fields : List FieldSchema) (params : List ParamField)
        (kvs : List (String × Json)),
        fieldsWellTyped reg fields params = true →
        paramsHeight params ≤ fuel →
        (∀ (name : String) (v : ParamValue) (inc : Bool) (hasher : HasherKind),
          ParamField.mk name v inc hasher ∈ params →
          lookupAssoc kvs name = some (dumpValue v)) →
        decodeFields reg fuel fields kvs = .ok params := by
      intro fields
      induction fields with
      | nil =>
        intro params kvs h _ _
        cases params with
        | nil => simp [decodeFields]
        | cons p ps => exact absurd h (by simp [fieldsWellTyped])
      | cons fs srest ih =>
        intro params kvs h hh hlook
        cases params with
        | nil => exact absurd h (by simp [fieldsWellTyped])
        | cons p prest =>
          cases p with
          | mk name v inc hasher =>
            rw [fieldsWellTyped] at h
            simp only [Bool.and_eq_true, beq_iff_eq, Bool.not_eq_true',
              beq_eq_false_iff_ne] at h
            obtain ⟨⟨⟨⟨⟨⟨hname, _⟩, _⟩, hinc⟩, hhash⟩, hvwt⟩, hrest⟩ := h
            rw [paramsHeight, max_le_iff] at hh
            have hl := hlook name v inc hasher (List.mem_cons_self _ _)
            have hv := hval v fs.type_ hvwt hh.1
            have hr := ih prest kvs hrest hh.2
              fun n w i a hm => hlook n w i a (List.mem_cons_of_mem _ hm)
            simp [decodeFields, hl, hv, hr, hname, hinc, hhash]
    intro t hwt hh
    cases t with
    | mk ns fam params =>
      rw [wellTypedTask] at hwt
      rcases hlk : lookupAssoc reg (get_namespace_family ns fam) with _ | schema
      · rw [hlk] at hwt
        exact absurd hwt (by simp)
      rw [hlk] at hwt
      simp only [Bool.and_eq_true, beq_iff_eq] at hwt
      obtain ⟨⟨⟨hnseq, hfameq⟩, hnodup⟩, hfwt⟩ := hwt
      rw [taskHeight] at hh
      have hkeys : ∀ p ∈ modelDumpFields params,
          p.1 ≠ "__namespace__" ∧ p.1 ≠ "__family__" := by
        intro p hp
        have h2 := fieldsWellTyped_names_ok reg _ _ hfwt p.1
          (modelDumpFields_keys params p hp)
        exact ⟨h2.2, h2.1⟩
      have hlookns : lookupAssoc
          (modelDumpFields params ++
            [("__family__", Json.str fam), ("__namespace__", Json.str ns)])
          "__namespace__" = some (.str ns) := by
        rw [lookupAssoc_append_right _ _ _ fun p hp => (hkeys p hp).1]
        rfl
      have hlookfam : lookupAssoc
          (modelDumpFields params ++
            [("__family__", Json.str fam), ("__namespace__", Json.str ns)])
          "__family__" = some (.str fam) := by
        rw [lookupAssoc_append_right _ _ _ fun p hp => (hkeys p hp).2]
        rfl
      have hreg : registerGet reg ns fam = .ok schema := by
        simp [registerGet, hlk]
      have hflds : decodeFields reg fuel schema.fields
          (modelDumpFields params ++
            [("__family__", Json.str fam), ("__namespace__", Json.str ns)]) =
          .ok params := by
        refine hfields schema.fields params _ hfwt (by omega) ?_
        intro n v i a hm
        exact lookupAssoc_append_left _ (lookupAssoc_modelDumpFields hnodup hm)
      show decodeTask reg (fuel + 1)
        (.obj (modelDumpFields params ++
          [("__family__", Json.str fam), ("__namespace__", Json.str ns)])) = _
      simp [decodeTask, hlookns, hlookfam, hreg, hflds, hnseq, hfameq]

/-- A concrete registry for the witness: leaf, mid (nested task parameter)
and root (set of tasks) types. -/
def demoReg : List (String × TaskSchema) :=
  [("ns.Leaf", ⟨"ns", "Leaf", [⟨"a", .int, true, .default⟩]⟩),
    ("ns.Leaf2", ⟨"ns", "Leaf2",
      [⟨"a", .int, true, .default⟩, ⟨"note", .str, false, .default⟩]⟩),
    ("ns.Mid", ⟨"ns", "Mid", [⟨"child", .task, true, .default⟩]⟩),
    ("ns.Root", ⟨"ns", "Root", [⟨"kids", .taskSet, true, .taskSet⟩]⟩)]

/-- A nested concrete task: a set containing a task with a nested task
parameter (which has an insignificant field) and a plain leaf. -/
def demoTask : TaskModel :=
  .mk "ns" "Root"
    [.mk "kids"
      (.taskSet
        [.mk "ns" "Mid" [.mk "child" (.task (leafG 1 "hello")) true .default],
          leafInt 2])
      true .taskSet]

/-- Witness for `claim_C5`: decoding the encoding of `demoTask` returns it. -/
theorem claim_C5_witness :
    decodeTask demoReg 5 (encodeTask demoTask) = .ok demoTask :=
  claim_C5 demoReg 5 demoTask (by decide) (by decide)

end Stardag
